import Mathlib

/-!
Shallow embedding of `spatial_hash_grid.py` (classes `Client` and
`SpatialHashGrid`).

Modelling conventions:
* Python numbers (coordinates, extents) are embedded as rationals `ℚ`,
  with exact arithmetic; Python float floor-division `a // b` followed by
  `int(...)` is `Int.floor (a / b)` (for an integral float, `int` is the
  identity, and `//` floors).
* Python `Client` objects are mutable and shared between the caller and
  the grid's buckets, so they are modelled as heap references: a client id
  `cid : Nat` indexing into an explicit heap `clients : List Client`
  carried in the grid state.  `new_client` allocates a fresh id.
* A Python `set` of clients deduplicates on hash-and-equality.  `__hash__`
  hashes the tuple `(position, dimensions, name)` and `__eq__` compares
  `(position, dimensions)`; with the standard idealisation that the hash
  is injective on these tuples, two clients are "the same set element"
  exactly when their `(position, dimensions, name)` triples coincide
  (`same_set_key`).  Buckets are lists of ids with `add`/`discard`
  following that semantics.
* The Python dict `cell_map` is an insertion-ordered association list
  from string keys (`get_cell_key`, exactly the f-string `f"{x}.{y}"`)
  to buckets.
-/

/-- Models the `Client` class: `position`, `dimensions`, `name`, and the
cached cell range `indices` (Python `None` = `Option.none`). -/
structure Client where
  position : ℚ × ℚ
  dimensions : ℚ × ℚ
  name : String
  indices : Option ((ℤ × ℤ) × (ℤ × ℤ))
deriving DecidableEq, Inhabited

/-- Models `Client.__eq__`: equality of `position` and `dimensions`
(the `name` does not participate). -/
def client_eq (c₁ c₂ : Client) : Bool :=
  decide (c₁.position = c₂.position ∧ c₁.dimensions = c₂.dimensions)

/-- Models the tuple hashed by `Client.__hash__`:
`(self.position, self.dimensions, self.name)`. -/
def hash_key (c : Client) : (ℚ × ℚ) × (ℚ × ℚ) × String :=
  (c.position, c.dimensions, c.name)

/-- Two clients are the same element of a Python `set` when their hashes
agree and they compare equal (idealised injective hash). -/
def same_set_key (c₁ c₂ : Client) : Bool :=
  decide (hash_key c₁ = hash_key c₂) && client_eq c₁ c₂

/-- Models the `SpatialHashGrid` class state: configured `bounds` and
`dimensions` (cell counts), the `cell_map` dict, plus the heap of
`Client` objects referenced by ids. -/
structure SpatialHashGrid where
  bounds : (ℚ × ℚ) × (ℚ × ℚ)
  dimensions : ℤ × ℤ
  cell_map : List (String × List Nat)
  clients : List Client
deriving DecidableEq

/-- Models `SpatialHashGrid.__init__`: stores `bounds` and `dimensions`
and starts with an empty cell map (no validation is performed). -/
def mkGrid (bounds : (ℚ × ℚ) × (ℚ × ℚ)) (dimensions : ℤ × ℤ) : SpatialHashGrid :=
  ⟨bounds, dimensions, [], []⟩

namespace SpatialHashGrid

/-- Models `cell_width`: `(bounds[0][1] - bounds[0][0]) / dimensions[0]`. -/
def cell_width (g : SpatialHashGrid) : ℚ :=
  (g.bounds.1.2 - g.bounds.1.1) / (g.dimensions.1 : ℚ)

/-- Models `cell_height`: `(bounds[1][1] - bounds[1][0]) / dimensions[1]`. -/
def cell_height (g : SpatialHashGrid) : ℚ :=
  (g.bounds.2.2 - g.bounds.2.1) / (g.dimensions.2 : ℚ)

/-- Models `get_cell_range`: the four `int((... ) // cell)` computations,
each an exact floor of a rational quotient. -/
def get_cell_range (g : SpatialHashGrid) (position dimensions : ℚ × ℚ) :
    (ℤ × ℤ) × (ℤ × ℤ) :=
  let min_x : ℤ := ⌊(position.1 - dimensions.1 / 2 - g.bounds.1.1) / g.cell_width⌋
  let max_x : ℤ := ⌊(position.1 + dimensions.1 / 2 - g.bounds.1.1) / g.cell_width⌋
  let min_y : ℤ := ⌊(position.2 - dimensions.2 / 2 - g.bounds.2.1) / g.cell_height⌋
  let max_y : ℤ := ⌊(position.2 + dimensions.2 / 2 - g.bounds.2.1) / g.cell_height⌋
  ((min_x, min_y), (max_x, max_y))

/-- Models `get_cell_key`: the f-string `f"{x}.{y}"`. -/
def get_cell_key (x y : ℤ) : String :=
  toString x ++ "." ++ toString y

end SpatialHashGrid

/-- Models Python `range(lo, hi + 1)` over integers, as iterated by the
nested loops `for x in range(min_cell[0], max_cell[0] + 1)` etc. -/
def intRange (lo hi : ℤ) : List ℤ :=
  (List.range (hi + 1 - lo).toNat).map fun i : ℕ => lo + (i : ℤ)

/-- The list of cell keys visited by the nested `for x ... for y ...`
loops over an inclusive cell range, in iteration order. -/
def rangeKeys (r : (ℤ × ℤ) × (ℤ × ℤ)) : List String :=
  (intRange r.1.1 r.2.1).flatMap fun x =>
    (intRange r.1.2 r.2.2).map fun y => SpatialHashGrid.get_cell_key x y

/-- Association-list lookup, modelling `cell_map[key]` / `key in cell_map`. -/
def mapFind (m : List (String × List Nat)) (k : String) : Option (List Nat) :=
  match m with
  | [] => none
  | (k', v) :: rest => if k' = k then some v else mapFind rest k

/-- Association-list store, modelling `cell_map[key] = bucket` (in-place
update of an existing key, appending a new key otherwise, as a Python
dict does). -/
def mapSet (m : List (String × List Nat)) (k : String) (v : List Nat) :
    List (String × List Nat) :=
  match m with
  | [] => [(k, v)]
  | (k', v') :: rest => if k' = k then (k, v) :: rest else (k', v') :: mapSet rest k v

/-- Association-list removal, modelling `del cell_map[key]`. -/
def mapErase (m : List (String × List Nat)) (k : String) :
    List (String × List Nat) :=
  match m with
  | [] => []
  | (k', v') :: rest => if k' = k then rest else (k', v') :: mapErase rest k

namespace SpatialHashGrid

/-- Dereferences a client id in the heap. -/
def getClient (g : SpatialHashGrid) (cid : Nat) : Client :=
  g.clients.getD cid default

/-- Overwrites the record of a client id (models mutating the shared
Python object in place). -/
def setClient (g : SpatialHashGrid) (cid : Nat) (c : Client) : SpatialHashGrid :=
  { g with clients := g.clients.set cid c }

/-- Models `set.add(client)` on a bucket: a no-op when an element with
the same hash and equality is already present, otherwise the client is
stored. -/
def bucket_add (g : SpatialHashGrid) (b : List Nat) (cid : Nat) : List Nat :=
  if b.any fun j => same_set_key (g.getClient j) (g.getClient cid) then b
  else b ++ [cid]

/-- Models `set.discard(client)` on a bucket: removes the stored element
matching the client by hash and equality, if any. -/
def bucket_discard (g : SpatialHashGrid) (b : List Nat) (cid : Nat) : List Nat :=
  b.eraseP fun j => same_set_key (g.getClient j) (g.getClient cid)

/-- The bucket stored for a key (empty when the key is absent). -/
def bucket_of (g : SpatialHashGrid) (k : String) : List Nat :=
  (mapFind g.cell_map k).getD []

/-- Membership of a client id in the bucket stored for a key. -/
abbrev mem_bucket (g : SpatialHashGrid) (k : String) (cid : Nat) : Prop :=
  cid ∈ g.bucket_of k

/-- The body of the nested insertion loops of `insert_client`: for each
key, fetch-or-create the bucket and `add` the client. -/
def insert_loop (g : SpatialHashGrid) (cid : Nat) (keys : List String)
    (m : List (String × List Nat)) : List (String × List Nat) :=
  match keys with
  | [] => m
  | k :: rest =>
    insert_loop g cid rest (mapSet m k (g.bucket_add ((mapFind m k).getD []) cid))

/-- Models `insert_client`: computes the cell range, caches it on the
client (`client.indices = (min_cell, max_cell)`), then adds the client
to the bucket of every cell in the range. -/
def insert_client (g : SpatialHashGrid) (cid : Nat) : SpatialHashGrid :=
  let c := g.getClient cid
  let r := g.get_cell_range c.position c.dimensions
  let g₁ := g.setClient cid { c with indices := some r }
  { g₁ with cell_map := insert_loop g₁ cid (rangeKeys r) g₁.cell_map }

/-- Models `new_client`: allocates a fresh `Client` object and inserts
it; returns the new state and the client's id (the Python return value
is the object reference). -/
def new_client (g : SpatialHashGrid) (position dimensions : ℚ × ℚ)
    (name : String) : SpatialHashGrid × Nat :=
  let cid := g.clients.length
  let g₁ := { g with clients := g.clients ++ [(⟨position, dimensions, name, none⟩ : Client)] }
  (g₁.insert_client cid, cid)

/-- Models `nearby.update(bucket)`: adds every bucket element to the
local result set with set semantics. -/
def set_update (g : SpatialHashGrid) (s b : List Nat) : List Nat :=
  match b with
  | [] => s
  | j :: rest => g.set_update (g.bucket_add s j) rest

/-- The body of the query loops of `find_nearby`, threading the grid
state through to make explicit that it is only read. -/
def find_loop (g : SpatialHashGrid) (keys : List String) (nearby : List Nat) :
    List Nat × SpatialHashGrid :=
  match keys with
  | [] => (nearby, g)
  | k :: rest =>
    match mapFind g.cell_map k with
    | some b => g.find_loop rest (g.set_update nearby b)
    | none => g.find_loop rest nearby

/-- Models `find_nearby`: unions the buckets of every cell in the query
range into a set and returns it as a list, together with the (unchanged)
grid state. -/
def find_nearby (g : SpatialHashGrid) (position dimensions : ℚ × ℚ) :
    List Nat × SpatialHashGrid :=
  g.find_loop (rangeKeys (g.get_cell_range position dimensions)) []

/-- Models the Python `in` test on a query result list (`client in
nearby`), which uses `Client.__eq__` only. -/
def list_contains (g : SpatialHashGrid) (result : List Nat) (c : Client) : Bool :=
  result.any fun j => client_eq (g.getClient j) c

/-- The body of the removal loops of `delete_client`: for each key of
the cached range, discard the client from the bucket if the key is
present, deleting the bucket when it becomes empty. -/
def delete_loop (g : SpatialHashGrid) (cid : Nat) (keys : List String)
    (m : List (String × List Nat)) : List (String × List Nat) :=
  match keys with
  | [] => m
  | k :: rest =>
    match mapFind m k with
    | some bucket =>
      let b' := g.bucket_discard bucket cid
      g.delete_loop cid rest (if b' = [] then mapErase m k else mapSet m k b')
    | none => g.delete_loop cid rest m

/-- Models `delete_client`: a no-op when the client has no cached range
(`if not client.indices: return`); otherwise removes the client from the
bucket of every cell of the *cached* range, deletes emptied buckets, and
clears `client.indices`. -/
def delete_client (g : SpatialHashGrid) (cid : Nat) : SpatialHashGrid :=
  match (g.getClient cid).indices with
  | none => g
  | some r =>
    let g₁ := { g with cell_map := g.delete_loop cid (rangeKeys r) g.cell_map }
    g₁.setClient cid { g₁.getClient cid with indices := none }

/-- Models `update_client`: delete from the old cells (via the cached
range), mutate the position in place, re-insert at the new position. -/
def update_client (g : SpatialHashGrid) (cid : Nat) (new_position : ℚ × ℚ) :
    SpatialHashGrid :=
  let g₁ := g.delete_client cid
  let g₂ := g₁.setClient cid { g₁.getClient cid with position := new_position }
  g₂.insert_client cid

/-- No *other* registered client has the given hash key: the side
condition under which the Python set operations inside the buckets
behave as identity-based bookkeeping. -/
def key_free (g : SpatialHashGrid) (cid : Nat)
    (key : (ℚ × ℚ) × (ℚ × ℚ) × String) : Prop :=
  ∀ j, j ≠ cid → (g.getClient j).indices ≠ none → hash_key (g.getClient j) ≠ key

/-- Some element of `s` is the set-representative of client `j`. -/
def has_rep (g : SpatialHashGrid) (s : List Nat) (j : Nat) : Prop :=
  ∃ j' ∈ s, same_set_key (g.getClient j') (g.getClient j) = true

/-- The coordinate transform exactly as §4.1 of the specification words
it: min_cell and max_cell as floors of the offsets of the rectangle's
edges divided by the cell sizes derived in §3. -/
def spec_cell_range (g : SpatialHashGrid) (center extent : ℚ × ℚ) :
    (ℤ × ℤ) × (ℤ × ℤ) :=
  ((⌊(center.1 - extent.1 / 2 - g.bounds.1.1) / g.cell_width⌋,
    ⌊(center.2 - extent.2 / 2 - g.bounds.2.1) / g.cell_height⌋),
   (⌊(center.1 + extent.1 / 2 - g.bounds.1.1) / g.cell_width⌋,
    ⌊(center.2 + extent.2 / 2 - g.bounds.2.1) / g.cell_height⌋))

end SpatialHashGrid

/-- Membership of a client id in the bucket a raw map stores for a key. -/
abbrev memB (m : List (String × List Nat)) (k : String) (j : Nat) : Prop :=
  j ∈ (mapFind m k).getD []

/-- Models the Python `in` test on a set of clients: an element is found
when its hash and equality both match (idealised injective hash). -/
def pyset_mem (s : List Client) (c : Client) : Bool :=
  s.any fun x => same_set_key x c

/-- Models the Python `in` test on a list of clients (as returned by
`find_nearby`), which compares with `Client.__eq__` only. -/
def pylist_mem (l : List Client) (c : Client) : Bool :=
  l.any fun x => client_eq x c

/-- Well-formedness of a grid state: registered clients are members of
exactly the buckets of their cached range, the cell map has no empty
buckets and no duplicate keys, registered clients have pairwise
distinct hash keys, cached ranges agree with the current position, and
buckets have no duplicates. -/
structure WF (g : SpatialHashGrid) : Prop where
  located : ∀ k cid, g.mem_bucket k cid →
    ∃ r, (g.getClient cid).indices = some r ∧ k ∈ rangeKeys r
  covered : ∀ cid r, (g.getClient cid).indices = some r →
    ∀ k ∈ rangeKeys r, g.mem_bucket k cid
  buckets_nonempty : ∀ kb ∈ g.cell_map, kb.2 ≠ []
  nodup_keys : (g.cell_map.map Prod.fst).Nodup
  distinct_keys : ∀ cid cid', cid ≠ cid' → (g.getClient cid).indices ≠ none →
    (g.getClient cid').indices ≠ none →
    hash_key (g.getClient cid) ≠ hash_key (g.getClient cid')
  ranges : ∀ cid r, (g.getClient cid).indices = some r →
    r = g.get_cell_range (g.getClient cid).position (g.getClient cid).dimensions
  buckets_nodup : ∀ k, (g.bucket_of k).Nodup

/-- Grid states reachable from construction by API calls, where every
registration, re-insertion and repositioning gives the affected client a
`(position, dimensions, name)` triple distinct from that of every other
currently registered client. -/
inductive Reachable : SpatialHashGrid → Prop where
  | init (bounds : (ℚ × ℚ) × (ℚ × ℚ)) (dims : ℤ × ℤ) : Reachable (mkGrid bounds dims)
  | new (g : SpatialHashGrid) (p d : ℚ × ℚ) (n : String) : Reachable g →
      g.key_free g.clients.length (p, d, n) → Reachable (g.new_client p d n).1
  | ins (g : SpatialHashGrid) (cid : Nat) : Reachable g → cid < g.clients.length →
      g.key_free cid (hash_key (g.getClient cid)) → Reachable (g.insert_client cid)
  | upd (g : SpatialHashGrid) (cid : Nat) (p : ℚ × ℚ) : Reachable g →
      cid < g.clients.length →
      g.key_free cid (p, (g.getClient cid).dimensions, (g.getClient cid).name) →
      Reachable (g.update_client cid p)
  | del (g : SpatialHashGrid) (cid : Nat) : Reachable g →
      Reachable (g.delete_client cid)

/-- The cell-map invariant stated by the specification: every client
with a cached range is a member of the bucket of every cell key of that
range and of no other bucket, and the cell map stores no empty bucket. -/
def cell_invariant (g : SpatialHashGrid) : Prop :=
  (∀ cid r, (g.getClient cid).indices = some r →
    ∀ k, g.mem_bucket k cid ↔ k ∈ rangeKeys r) ∧
  (∀ cid, (g.getClient cid).indices = none → ∀ k, ¬ g.mem_bucket k cid) ∧
  (∀ kb ∈ g.cell_map, kb.2 ≠ [])

/-! ### Concrete scenario states used by the claim theorems -/

/-- A 10×10 grid over [0,100)×[0,100) in which the same registration
call was issued twice with identical arguments and the first returned
handle was then deleted. -/
def C1grid : SpatialHashGrid :=
  ((((mkGrid ((0, 100), (0, 100)) (10, 10)).new_client (50, 50) (10, 10)
    "A").1.new_client (50, 50) (10, 10) "A").1).delete_client 0

/-- A freshly registered single client on a 10×10 grid. -/
def C1wit : SpatialHashGrid :=
  ((mkGrid ((0, 100), (0, 100)) (10, 10)).new_client (50, 50) (10, 10) "W").1

/-- Two clients with equal dimensions and name, the first of which is
then repositioned exactly onto the second. -/
def C2grid : SpatialHashGrid :=
  ((((mkGrid ((0, 100), (0, 100)) (10, 10)).new_client (50, 50) (10, 10)
    "X").1.new_client (80, 80) (10, 10) "X").1).update_client 0 (80, 80)

/-- A register-then-delete history on the demo-sized grid. -/
def C2wit : SpatialHashGrid :=
  (((mkGrid ((0, 800), (0, 600)) (10, 10)).new_client (100, 100) (20, 20)
    "Obj-0").1).delete_client 0

/-- A single registered client on a 10×10 grid. -/
def C3wit : SpatialHashGrid :=
  ((mkGrid ((0, 100), (0, 100)) (10, 10)).new_client (50, 50) (10, 10) "T").1

/-- A client that was registered and then deleted, so its cached range
is cleared. -/
def C4grid : SpatialHashGrid :=
  (((mkGrid ((0, 100), (0, 100)) (10, 10)).new_client (50, 50) (10, 10)
    "A").1).delete_client 0

/-- The 10×10 example grid over [0,100)×[0,100). -/
def C6grid : SpatialHashGrid := mkGrid ((0, 100), (0, 100)) (10, 10)

/-- The worked example of §8: A at (50,50) extent (10,10) and B at
(10,10) extent (5,5) on the 10×10 grid (ids 0 and 1). -/
def C7grid : SpatialHashGrid :=
  (((mkGrid ((0, 100), (0, 100)) (10, 10)).new_client (50, 50) (10, 10)
    "A").1.new_client (10, 10) (5, 5) "B").1

/-- A zero-extent object registered exactly on the cell corner (10,10)
of the 10×10 grid. -/
def C8grid : SpatialHashGrid :=
  ((mkGrid ((0, 100), (0, 100)) (10, 10)).new_client (10, 10) (0, 0) "P").1

/-- An object whose right edge (x = 20) lies exactly on a cell boundary
of the 10×10 grid. -/
def C8wit : SpatialHashGrid :=
  ((mkGrid ((0, 100), (0, 100)) (10, 10)).new_client (15, 15) (10, 10) "Q").1

/-- A client record named "Client1". -/
def C9r1 : Client := ⟨(50, 50), (10, 10), "Client1", none⟩

/-- A record equal to `C9r1` under `__eq__` but named differently. -/
def C9r2 : Client := ⟨(50, 50), (10, 10), "Client2", none⟩

/-- A record distinct from `C9r1` (different cached range) but with the
same position, dimensions and name. -/
def C9r3 : Client := ⟨(50, 50), (10, 10), "Client1", some ((0, 0), (0, 0))⟩

/-! ### Basic lemmas about ranges, the association-list map, and buckets -/

theorem mem_intRange {lo hi x : ℤ} : x ∈ intRange lo hi ↔ lo ≤ x ∧ x ≤ hi := by
  constructor
  · intro h
    obtain ⟨i, hmem, rfl⟩ := List.mem_map.mp h
    have hlt := List.mem_range.mp hmem
    have h₁ : (i : ℤ) < hi + 1 - lo := by
      have h₂ : ((hi + 1 - lo).toNat : ℤ) ≤ hi + 1 - lo ∨ (hi + 1 - lo).toNat = 0 := by
        rcases le_or_lt 0 (hi + 1 - lo) with hc | hc
        · exact Or.inl (le_of_eq (Int.toNat_of_nonneg hc))
        · exact Or.inr (Int.toNat_of_nonpos (le_of_lt hc))
      rcases h₂ with h₂ | h₂
      · calc (i : ℤ) < ((hi + 1 - lo).toNat : ℤ) := by exact_mod_cast hlt
          _ ≤ hi + 1 - lo := h₂
      · omega
    have h₀ : (0 : ℤ) ≤ (i : ℤ) := Int.natCast_nonneg i
    omega
  · rintro ⟨h₁, h₂⟩
    refine List.mem_map.mpr ⟨(x - lo).toNat, List.mem_range.mpr ?_, ?_⟩
    · have e₁ : ((x - lo).toNat : ℤ) = x - lo := Int.toNat_of_nonneg (by omega)
      have e₂ : ((hi + 1 - lo).toNat : ℤ) = hi + 1 - lo := Int.toNat_of_nonneg (by omega)
      omega
    · have e₁ : ((x - lo).toNat : ℤ) = x - lo := Int.toNat_of_nonneg (by omega)
      omega

theorem mem_rangeKeys {r : (ℤ × ℤ) × (ℤ × ℤ)} {k : String} :
    k ∈ rangeKeys r ↔ ∃ x y, x ∈ intRange r.1.1 r.2.1 ∧ y ∈ intRange r.1.2 r.2.2 ∧
      k = SpatialHashGrid.get_cell_key x y := by
  simp only [rangeKeys, List.mem_flatMap, List.mem_map]
  constructor
  · rintro ⟨x, hx, y, hy, rfl⟩
    exact ⟨x, y, hx, hy, rfl⟩
  · rintro ⟨x, y, hx, hy, rfl⟩
    exact ⟨x, hx, y, hy, rfl⟩

theorem mapFind_mapSet_self (m : List (String × List Nat)) (k : String) (v : List Nat) :
    mapFind (mapSet m k v) k = some v := by
  induction m with
  | nil => simp [mapFind, mapSet]
  | cons hd tl ih =>
    by_cases h : hd.1 = k
    · simp [mapFind, mapSet, h]
    · simp [mapFind, mapSet, h, ih]

theorem mapFind_mapSet_ne (m : List (String × List Nat)) {k k' : String} (v : List Nat)
    (h : k' ≠ k) : mapFind (mapSet m k v) k' = mapFind m k' := by
  induction m with
  | nil => simp [mapFind, mapSet, Ne.symm h]
  | cons hd tl ih =>
    by_cases h' : hd.1 = k
    · subst h'
      simp [mapFind, mapSet, Ne.symm h]
    · by_cases h'' : hd.1 = k'
      · simp [mapFind, mapSet, h', h'', h]
      · simp [mapFind, mapSet, h', h'', ih]

theorem mapFind_mapErase_ne (m : List (String × List Nat)) {k k' : String}
    (h : k' ≠ k) : mapFind (mapErase m k) k' = mapFind m k' := by
  induction m with
  | nil => simp [mapFind, mapErase]
  | cons hd tl ih =>
    by_cases h' : hd.1 = k
    · subst h'
      simp [mapFind, mapErase, Ne.symm h]
    · by_cases h'' : hd.1 = k'
      · simp [mapFind, mapErase, h', h'', h]
      · simp [mapFind, mapErase, h', h'', ih]

theorem mapFind_eq_none_of_not_mem_keys {m : List (String × List Nat)} {k : String}
    (h : k ∉ m.map Prod.fst) : mapFind m k = none := by
  induction m with
  | nil => simp [mapFind]
  | cons hd tl ih =>
    simp only [List.map_cons, List.mem_cons] at h
    push_neg at h
    simp [mapFind, Ne.symm h.1, ih h.2]

theorem mapFind_mapErase_self {m : List (String × List Nat)} {k : String}
    (h : (m.map Prod.fst).Nodup) : mapFind (mapErase m k) k = none := by
  induction m with
  | nil => simp [mapErase, mapFind]
  | cons hd tl ih =>
    simp only [List.map_cons, List.nodup_cons] at h
    by_cases h' : hd.1 = k
    · subst h'
      simp only [mapErase, if_pos rfl]
      exact mapFind_eq_none_of_not_mem_keys h.1
    · simp [mapErase, mapFind, h', ih h.2]

theorem mem_mapSet {m : List (String × List Nat)} {k : String} {v : List Nat} {kb}
    (h : kb ∈ mapSet m k v) : kb = (k, v) ∨ kb ∈ m := by
  induction m with
  | nil => simpa [mapSet] using h
  | cons hd tl ih =>
    by_cases h' : hd.1 = k
    · simp only [mapSet, h', if_pos rfl] at h
      rcases List.mem_cons.mp h with h | h
      · exact Or.inl h
      · exact Or.inr (List.mem_cons_of_mem _ h)
    · simp only [mapSet, h', if_neg h'] at h
      rcases List.mem_cons.mp h with h | h
      · exact Or.inr (by simp [h])
      · rcases ih h with h | h
        · exact Or.inl h
        · exact Or.inr (List.mem_cons_of_mem _ h)

theorem mapErase_sublist (m : List (String × List Nat)) (k : String) :
    (mapErase m k).Sublist m := by
  induction m with
  | nil => simp [mapErase]
  | cons hd tl ih =>
    by_cases h : hd.1 = k
    · simp only [mapErase, if_pos h]
      exact (List.sublist_cons_self hd tl)
    · simp only [mapErase, if_neg h]
      exact ih.cons₂ hd

theorem mem_mapErase {m : List (String × List Nat)} {k : String} {kb}
    (h : kb ∈ mapErase m k) : kb ∈ m :=
  (mapErase_sublist m k).mem h

theorem mem_keys_mapSet {m : List (String × List Nat)} {k k' : String} {v : List Nat}
    (h : k' ∈ (mapSet m k v).map Prod.fst) : k' ∈ m.map Prod.fst ∨ k' = k := by
  simp only [List.mem_map] at h
  obtain ⟨kb, hkb, rfl⟩ := h
  rcases mem_mapSet hkb with h | h
  · subst h
    exact Or.inr rfl
  · exact Or.inl (List.mem_map_of_mem _ h)

theorem nodup_keys_mapSet {m : List (String × List Nat)} {k : String} {v : List Nat}
    (h : (m.map Prod.fst).Nodup) : ((mapSet m k v).map Prod.fst).Nodup := by
  induction m with
  | nil => simp [mapSet]
  | cons hd tl ih =>
    simp only [List.map_cons, List.nodup_cons] at h
    by_cases h' : hd.1 = k
    · simp only [mapSet, if_pos h', List.map_cons, List.nodup_cons]
      exact ⟨h' ▸ h.1, h.2⟩
    · simp only [mapSet, if_neg h', List.map_cons, List.nodup_cons]
      refine ⟨fun hmem => ?_, ih h.2⟩
      rcases mem_keys_mapSet hmem with hmem | hmem
      · exact h.1 hmem
      · exact h' hmem

theorem nodup_keys_mapErase {m : List (String × List Nat)} {k : String}
    (h : (m.map Prod.fst).Nodup) : ((mapErase m k).map Prod.fst).Nodup :=
  h.sublist ((mapErase_sublist m k).map Prod.fst)

theorem mapFind_mem {m : List (String × List Nat)} {k : String} {v : List Nat}
    (h : mapFind m k = some v) : (k, v) ∈ m := by
  induction m with
  | nil => simp [mapFind] at h
  | cons hd tl ih =>
    by_cases h' : hd.1 = k
    · subst h'
      simp only [mapFind, if_pos rfl] at h
      obtain rfl := Option.some.inj h
      simp
    · simp only [mapFind, if_neg h'] at h
      exact List.mem_cons_of_mem _ (ih h)

/-! ### Lemmas about client keys and bucket operations -/

theorem same_set_key_refl (c : Client) : same_set_key c c = true := by
  simp [same_set_key, client_eq]

theorem client_eq_of_same_set_key {c₁ c₂ : Client}
    (h : same_set_key c₁ c₂ = true) : client_eq c₁ c₂ = true := by
  simp only [same_set_key, Bool.and_eq_true] at h
  exact h.2

theorem same_set_key_iff {c₁ c₂ : Client} :
    same_set_key c₁ c₂ = true ↔ hash_key c₁ = hash_key c₂ := by
  simp only [same_set_key, client_eq, hash_key, Bool.and_eq_true, decide_eq_true_eq,
    Prod.mk.injEq]
  tauto

theorem same_set_key_false_of_hash_ne {c₁ c₂ : Client}
    (h : hash_key c₁ ≠ hash_key c₂) : same_set_key c₁ c₂ = false := by
  rcases hb : same_set_key c₁ c₂ with _ | _
  · rfl
  · exact absurd (same_set_key_iff.mp hb) h

namespace SpatialHashGrid

theorem mem_bucket_add {g : SpatialHashGrid} {b : List Nat} {cid j : Nat}
    (h : j ∈ b) : j ∈ g.bucket_add b cid := by
  unfold bucket_add
  split
  · exact h
  · exact List.mem_append_left _ h

theorem mem_of_mem_bucket_add {g : SpatialHashGrid} {b : List Nat} {cid j : Nat}
    (h : j ∈ g.bucket_add b cid) : j ∈ b ∨ j = cid := by
  unfold bucket_add at h
  split at h
  · exact Or.inl h
  · rcases List.mem_append.mp h with h | h
    · exact Or.inl h
    · exact Or.inr (List.mem_singleton.mp h)

theorem self_mem_bucket_add {g : SpatialHashGrid} {b : List Nat} {cid : Nat}
    (H : ∀ j ∈ b, same_set_key (g.getClient j) (g.getClient cid) = true → j = cid) :
    cid ∈ g.bucket_add b cid := by
  unfold bucket_add
  split
  · next h =>
    obtain ⟨j, hj, hkey⟩ := List.any_eq_true.mp h
    exact (H j hj hkey) ▸ hj
  · exact List.mem_append_right _ (List.mem_singleton.mpr rfl)

theorem bucket_add_ne_nil {g : SpatialHashGrid} {b : List Nat} {cid : Nat} :
    g.bucket_add b cid ≠ [] := by
  unfold bucket_add
  split
  · next h =>
    intro hnil
    subst hnil
    simp at h
  · simp

theorem bucket_add_nodup {g : SpatialHashGrid} {b : List Nat} {cid : Nat}
    (h : b.Nodup) : (g.bucket_add b cid).Nodup := by
  unfold bucket_add
  split
  · exact h
  · next hno =>
    refine List.Nodup.append h (List.nodup_singleton cid) ?_
    intro j hj hj'
    obtain rfl := List.mem_singleton.mp hj'
    exact absurd (List.any_eq_true.mpr ⟨j, hj, same_set_key_refl _⟩) (by simpa using hno)

theorem bucket_discard_sublist (g : SpatialHashGrid) (b : List Nat) (cid : Nat) :
    (g.bucket_discard b cid).Sublist b :=
  List.eraseP_sublist b

theorem bucket_discard_nodup {g : SpatialHashGrid} {b : List Nat} {cid : Nat}
    (h : b.Nodup) : (g.bucket_discard b cid).Nodup :=
  h.sublist (bucket_discard_sublist g b cid)

theorem not_mem_bucket_discard {g : SpatialHashGrid} {b : List Nat} {cid : Nat}
    (hnd : b.Nodup)
    (H : ∀ j ∈ b, same_set_key (g.getClient j) (g.getClient cid) = true → j = cid) :
    cid ∉ g.bucket_discard b cid := by
  unfold bucket_discard
  induction b with
  | nil => simp
  | cons hd tl ih =>
    simp only [List.nodup_cons] at hnd
    by_cases hp : same_set_key (g.getClient hd) (g.getClient cid) = true
    · rw [@List.eraseP_cons_of_pos _ hd tl
        (fun j => same_set_key (g.getClient j) (g.getClient cid)) hp]
      obtain rfl := H hd (List.mem_cons_self _ _) hp
      exact hnd.1
    · rw [@List.eraseP_cons_of_neg _ hd tl
        (fun j => same_set_key (g.getClient j) (g.getClient cid)) (by simpa using hp)]
      intro hmem
      rcases List.mem_cons.mp hmem with rfl | hmem
      · exact hp (same_set_key_refl _)
      · exact ih hnd.2 (fun j hj => H j (List.mem_cons_of_mem _ hj)) hmem

theorem mem_bucket_discard {g : SpatialHashGrid} {b : List Nat} {cid j : Nat}
    (hj : same_set_key (g.getClient j) (g.getClient cid) = false)
    (h : j ∈ b) : j ∈ g.bucket_discard b cid := by
  unfold bucket_discard
  induction b with
  | nil => simp at h
  | cons hd tl ih =>
    by_cases hp : same_set_key (g.getClient hd) (g.getClient cid) = true
    · rw [@List.eraseP_cons_of_pos _ hd tl
        (fun j => same_set_key (g.getClient j) (g.getClient cid)) hp]
      rcases List.mem_cons.mp h with rfl | h
      · rw [hj] at hp
        cases hp
      · exact h
    · rw [@List.eraseP_cons_of_neg _ hd tl
        (fun j => same_set_key (g.getClient j) (g.getClient cid)) (by simpa using hp)]
      rcases List.mem_cons.mp h with rfl | h
      · exact List.mem_cons_self _ _
      · exact List.mem_cons_of_mem _ (ih h)

theorem mem_of_mem_bucket_discard {g : SpatialHashGrid} {b : List Nat} {cid j : Nat}
    (h : j ∈ g.bucket_discard b cid) : j ∈ b :=
  (bucket_discard_sublist g b cid).mem h

end SpatialHashGrid

/-! ### Lemmas about the insertion loop -/

namespace SpatialHashGrid

theorem bucket_of_eq (g : SpatialHashGrid) (k : String) :
    g.bucket_of k = (mapFind g.cell_map k).getD [] := rfl

theorem insert_loop_find_of_not_mem {g : SpatialHashGrid} {cid : Nat}
    {keys : List String} {m : List (String × List Nat)} {k : String} (h : k ∉ keys) :
    mapFind (insert_loop g cid keys m) k = mapFind m k := by
  induction keys generalizing m with
  | nil => rfl
  | cons k₀ rest ih =>
    have hne : k ≠ k₀ := fun he => h (he ▸ List.mem_cons_self _ _)
    rw [insert_loop, ih (fun hm => h (List.mem_cons_of_mem _ hm)),
      mapFind_mapSet_ne _ _ hne]

theorem memB_insert_step {g : SpatialHashGrid} {cid j : Nat}
    {m : List (String × List Nat)} {k₀ k : String}
    (h : memB (mapSet m k₀ (g.bucket_add ((mapFind m k₀).getD []) cid)) k j) :
    memB m k j ∨ (j = cid ∧ k = k₀) := by
  by_cases hk : k = k₀
  · subst hk
    rw [memB, mapFind_mapSet_self] at h
    rcases mem_of_mem_bucket_add h with h | h
    · exact Or.inl h
    · exact Or.inr ⟨h, rfl⟩
  · rw [memB, mapFind_mapSet_ne _ _ hk] at h
    exact Or.inl h

theorem memB_insert_loop_mono {g : SpatialHashGrid} {cid j : Nat}
    {keys : List String} {m : List (String × List Nat)} {k : String}
    (h : memB m k j) : memB (insert_loop g cid keys m) k j := by
  induction keys generalizing m with
  | nil => exact h
  | cons k₀ rest ih =>
    rw [insert_loop]
    refine ih ?_
    by_cases hk : k = k₀
    · subst hk
      rw [memB, mapFind_mapSet_self]
      exact mem_bucket_add h
    · rw [memB, mapFind_mapSet_ne _ _ hk]
      exact h

theorem memB_of_memB_insert_loop {g : SpatialHashGrid} {cid j : Nat}
    {keys : List String} {m : List (String × List Nat)} {k : String}
    (h : memB (insert_loop g cid keys m) k j) :
    memB m k j ∨ (j = cid ∧ k ∈ keys) := by
  induction keys generalizing m with
  | nil => exact Or.inl h
  | cons k₀ rest ih =>
    rw [insert_loop] at h
    rcases ih h with h | h
    · rcases memB_insert_step h with h | ⟨hj, hk⟩
      · exact Or.inl h
      · exact Or.inr ⟨hj, hk ▸ List.mem_cons_self _ _⟩
    · exact Or.inr ⟨h.1, List.mem_cons_of_mem _ h.2⟩

theorem self_memB_insert_loop {g : SpatialHashGrid} {cid : Nat}
    {keys : List String} {m : List (String × List Nat)} {k : String}
    (H : ∀ k' j, memB m k' j → same_set_key (g.getClient j) (g.getClient cid) = true →
      j = cid)
    (h : k ∈ keys) : memB (insert_loop g cid keys m) k cid := by
  induction keys generalizing m with
  | nil => cases h
  | cons k₀ rest ih =>
    rw [insert_loop]
    have H' : ∀ k' j,
        memB (mapSet m k₀ (g.bucket_add ((mapFind m k₀).getD []) cid)) k' j →
        same_set_key (g.getClient j) (g.getClient cid) = true → j = cid := by
      intro k' j hj hkey
      rcases memB_insert_step hj with hj | hj
      · exact H k' j hj hkey
      · exact hj.1
    rcases List.mem_cons.mp h with rfl | h
    · refine memB_insert_loop_mono ?_
      rw [memB, mapFind_mapSet_self]
      exact self_mem_bucket_add (fun j hj => H k j hj)
    · exact ih H' h

theorem insert_loop_nonempty {g : SpatialHashGrid} {cid : Nat}
    {keys : List String} {m : List (String × List Nat)}
    (h : ∀ kb ∈ m, kb.2 ≠ []) : ∀ kb ∈ insert_loop g cid keys m, kb.2 ≠ [] := by
  induction keys generalizing m with
  | nil => exact h
  | cons k₀ rest ih =>
    rw [insert_loop]
    refine ih ?_
    intro kb hkb
    rcases mem_mapSet hkb with rfl | hkb
    · exact bucket_add_ne_nil
    · exact h kb hkb

theorem insert_loop_nodup_keys {g : SpatialHashGrid} {cid : Nat}
    {keys : List String} {m : List (String × List Nat)}
    (h : (m.map Prod.fst).Nodup) : ((insert_loop g cid keys m).map Prod.fst).Nodup := by
  induction keys generalizing m with
  | nil => exact h
  | cons k₀ rest ih =>
    rw [insert_loop]
    exact ih (nodup_keys_mapSet h)

theorem insert_loop_bucket_nodup {g : SpatialHashGrid} {cid : Nat}
    {keys : List String} {m : List (String × List Nat)}
    (h : ∀ k, ((mapFind m k).getD []).Nodup) :
    ∀ k, ((mapFind (insert_loop g cid keys m) k).getD []).Nodup := by
  induction keys generalizing m with
  | nil => exact h
  | cons k₀ rest ih =>
    rw [insert_loop]
    refine ih ?_
    intro k
    by_cases hk : k = k₀
    · subst hk
      rw [mapFind_mapSet_self]
      exact bucket_add_nodup (h k)
    · rw [mapFind_mapSet_ne _ _ hk]
      exact h k

end SpatialHashGrid

/-! ### Lemmas about the deletion loop -/

namespace SpatialHashGrid

theorem delete_loop_find_of_not_mem {g : SpatialHashGrid} {cid : Nat}
    {keys : List String} {m : List (String × List Nat)} {k : String} (h : k ∉ keys) :
    mapFind (g.delete_loop cid keys m) k = mapFind m k := by
  induction keys generalizing m with
  | nil => rfl
  | cons k₀ rest ih =>
    have hne : k ≠ k₀ := fun he => h (he ▸ List.mem_cons_self _ _)
    have hrest : k ∉ rest := fun hm => h (List.mem_cons_of_mem _ hm)
    rw [delete_loop]
    rcases hf : mapFind m k₀ with _ | bucket
    · exact ih hrest
    · rw [ih hrest]
      split
      · exact mapFind_mapErase_ne _ hne
      · exact mapFind_mapSet_ne _ _ hne

theorem delete_loop_cons_none {g : SpatialHashGrid} {cid : Nat} {k₀ : String}
    {rest : List String} {m : List (String × List Nat)}
    (hf : mapFind m k₀ = none) :
    g.delete_loop cid (k₀ :: rest) m = g.delete_loop cid rest m := by
  simp only [delete_loop, hf]

theorem delete_loop_cons_some {g : SpatialHashGrid} {cid : Nat} {k₀ : String}
    {rest : List String} {m : List (String × List Nat)} {bucket : List Nat}
    (hf : mapFind m k₀ = some bucket) :
    g.delete_loop cid (k₀ :: rest) m =
      g.delete_loop cid rest (if g.bucket_discard bucket cid = [] then mapErase m k₀
        else mapSet m k₀ (g.bucket_discard bucket cid)) := by
  simp only [delete_loop, hf]

theorem memB_delete_step {g : SpatialHashGrid} {cid j : Nat}
    {m : List (String × List Nat)} {k₀ k : String} {bucket : List Nat}
    (hnk : (m.map Prod.fst).Nodup) (hf : mapFind m k₀ = some bucket)
    (h : memB (if g.bucket_discard bucket cid = [] then mapErase m k₀
      else mapSet m k₀ (g.bucket_discard bucket cid)) k j) :
    memB m k j := by
  by_cases hk : k = k₀
  · subst hk
    split at h
    · rw [memB, mapFind_mapErase_self hnk] at h
      simp at h
    · rw [memB, mapFind_mapSet_self] at h
      rw [memB, hf]
      exact mem_of_mem_bucket_discard h
  · split at h
    · rwa [memB, mapFind_mapErase_ne _ hk] at h
    · rwa [memB, mapFind_mapSet_ne _ _ hk] at h

theorem delete_step_nodup_keys {g : SpatialHashGrid} {cid : Nat}
    {m : List (String × List Nat)} {k₀ : String} {bucket : List Nat}
    (hnk : (m.map Prod.fst).Nodup) :
    ((if g.bucket_discard bucket cid = [] then mapErase m k₀
      else mapSet m k₀ (g.bucket_discard bucket cid)).map Prod.fst).Nodup := by
  split
  · exact nodup_keys_mapErase hnk
  · exact nodup_keys_mapSet hnk

theorem memB_of_memB_delete_loop {g : SpatialHashGrid} {cid j : Nat}
    {keys : List String} {m : List (String × List Nat)} {k : String}
    (hnk : (m.map Prod.fst).Nodup)
    (h : memB (g.delete_loop cid keys m) k j) : memB m k j := by
  induction keys generalizing m with
  | nil => exact h
  | cons k₀ rest ih =>
    rw [delete_loop] at h
    rcases hf : mapFind m k₀ with _ | bucket
    · rw [hf] at h
      exact ih hnk h
    · rw [hf] at h
      exact memB_delete_step hnk hf (ih (delete_step_nodup_keys hnk) h)

theorem delete_loop_removes {g : SpatialHashGrid} {cid : Nat}
    {keys : List String} {m : List (String × List Nat)}
    (hnk : (m.map Prod.fst).Nodup)
    (hbn : ∀ k, ((mapFind m k).getD []).Nodup)
    (H : ∀ k j, memB m k j → same_set_key (g.getClient j) (g.getClient cid) = true →
      j = cid) :
    ∀ k ∈ keys, ¬ memB (g.delete_loop cid keys m) k cid := by
  induction keys generalizing m with
  | nil => intro k hk; cases hk
  | cons k₀ rest ih =>
    intro k hk
    rcases hf : mapFind m k₀ with _ | bucket
    · rw [delete_loop_cons_none hf]
      rcases List.mem_cons.mp hk with rfl | hk
      · by_cases hkr : k ∈ rest
        · exact ih hnk hbn H k hkr
        · rw [memB, delete_loop_find_of_not_mem hkr, hf]
          simp
      · exact ih hnk hbn H k hk
    · rw [delete_loop_cons_some hf]
      have hnk' : (((if g.bucket_discard bucket cid = [] then mapErase m k₀
          else mapSet m k₀ (g.bucket_discard bucket cid))).map Prod.fst).Nodup :=
        delete_step_nodup_keys hnk
      have hbn' : ∀ k', ((mapFind (if g.bucket_discard bucket cid = [] then mapErase m k₀
          else mapSet m k₀ (g.bucket_discard bucket cid)) k').getD []).Nodup := by
        intro k'
        by_cases hk' : k' = k₀
        · subst hk'
          split
          · rw [mapFind_mapErase_self hnk]
            simp
          · rw [mapFind_mapSet_self]
            refine bucket_discard_nodup ?_
            have := hbn k'
            rwa [hf] at this
        · split
          · rw [mapFind_mapErase_ne _ hk']
            exact hbn k'
          · rw [mapFind_mapSet_ne _ _ hk']
            exact hbn k'
      have H' : ∀ k' j, memB (if g.bucket_discard bucket cid = [] then mapErase m k₀
          else mapSet m k₀ (g.bucket_discard bucket cid)) k' j →
          same_set_key (g.getClient j) (g.getClient cid) = true → j = cid :=
        fun k' j hj hkey => H k' j (memB_delete_step hnk hf hj) hkey
      by_cases hkr : k ∈ rest
      · exact ih hnk' hbn' H' k hkr
      · rcases List.mem_cons.mp hk with rfl | hk
        · rw [memB, delete_loop_find_of_not_mem hkr]
          by_cases hempty : g.bucket_discard bucket cid = []
          · rw [if_pos hempty, mapFind_mapErase_self hnk]
            simp
          · rw [if_neg hempty, mapFind_mapSet_self]
            have hbnd : bucket.Nodup := by
              have := hbn k
              rwa [hf] at this
            refine not_mem_bucket_discard hbnd ?_
            intro j hj hkey
            refine H k j ?_ hkey
            rw [memB, hf]
            exact hj
        · exact absurd hk hkr

theorem memB_delete_loop_of_no_key {g : SpatialHashGrid} {cid j : Nat}
    {keys : List String} {m : List (String × List Nat)} {k : String}
    (hj : same_set_key (g.getClient j) (g.getClient cid) = false)
    (h : memB m k j) : memB (g.delete_loop cid keys m) k j := by
  induction keys generalizing m with
  | nil => exact h
  | cons k₀ rest ih =>
    rw [delete_loop]
    rcases hf : mapFind m k₀ with _ | bucket
    · exact ih h
    · refine ih ?_
      by_cases hk : k = k₀
      · subst hk
        rw [memB, hf] at h
        have hj' : j ∈ g.bucket_discard bucket cid := mem_bucket_discard hj h
        rw [if_neg (List.ne_nil_of_mem hj'), memB, mapFind_mapSet_self]
        exact hj'
      · split
        · rwa [memB, mapFind_mapErase_ne _ hk]
        · rwa [memB, mapFind_mapSet_ne _ _ hk]

theorem delete_loop_nonempty {g : SpatialHashGrid} {cid : Nat}
    {keys : List String} {m : List (String × List Nat)}
    (h : ∀ kb ∈ m, kb.2 ≠ []) : ∀ kb ∈ g.delete_loop cid keys m, kb.2 ≠ [] := by
  induction keys generalizing m with
  | nil => exact h
  | cons k₀ rest ih =>
    rw [delete_loop]
    rcases hf : mapFind m k₀ with _ | bucket
    · exact ih h
    · refine ih ?_
      intro kb hkb
      split at hkb
      · exact h kb (mem_mapErase hkb)
      · next hne =>
        rcases mem_mapSet hkb with rfl | hkb
        · exact hne
        · exact h kb hkb

theorem delete_loop_nodup_keys {g : SpatialHashGrid} {cid : Nat}
    {keys : List String} {m : List (String × List Nat)}
    (h : (m.map Prod.fst).Nodup) : ((g.delete_loop cid keys m).map Prod.fst).Nodup := by
  induction keys generalizing m with
  | nil => exact h
  | cons k₀ rest ih =>
    rw [delete_loop]
    rcases hf : mapFind m k₀ with _ | bucket
    · exact ih h
    · exact ih (delete_step_nodup_keys h)

theorem delete_loop_bucket_nodup {g : SpatialHashGrid} {cid : Nat}
    {keys : List String} {m : List (String × List Nat)}
    (hnk : (m.map Prod.fst).Nodup)
    (h : ∀ k, ((mapFind m k).getD []).Nodup) :
    ∀ k, ((mapFind (g.delete_loop cid keys m) k).getD []).Nodup := by
  induction keys generalizing m with
  | nil => exact h
  | cons k₀ rest ih =>
    rw [delete_loop]
    rcases hf : mapFind m k₀ with _ | bucket
    · exact ih hnk h
    · refine ih (delete_step_nodup_keys hnk) ?_
      intro k'
      by_cases hk' : k' = k₀
      · subst hk'
        split
        · rw [mapFind_mapErase_self hnk]
          simp
        · rw [mapFind_mapSet_self]
          refine bucket_discard_nodup ?_
          have := h k'
          rwa [hf] at this
      · split
        · rw [mapFind_mapErase_ne _ hk']
          exact h k'
        · rw [mapFind_mapSet_ne _ _ hk']
          exact h k'

end SpatialHashGrid

/-! ### State-level helper lemmas -/

namespace SpatialHashGrid

theorem getClient_setClient_self {g : SpatialHashGrid} {cid : Nat} {c : Client}
    (h : cid < g.clients.length) : (g.setClient cid c).getClient cid = c := by
  simp [getClient, setClient, List.getD, List.getElem?_set_self, h]

theorem getClient_setClient_ne {g : SpatialHashGrid} {cid j : Nat} {c : Client}
    (h : j ≠ cid) : (g.setClient cid c).getClient j = g.getClient j := by
  simp [getClient, setClient, List.getD, List.getElem?_set_ne (Ne.symm h)]

theorem getClient_default {g : SpatialHashGrid} {cid : Nat}
    (h : g.clients.length ≤ cid) : g.getClient cid = default := by
  simp [getClient, List.getD, List.getElem?_eq_none h]

theorem lt_length_of_indices_some {g : SpatialHashGrid} {cid : Nat}
    {r : (ℤ × ℤ) × (ℤ × ℤ)} (h : (g.getClient cid).indices = some r) :
    cid < g.clients.length := by
  by_contra hge
  rw [getClient_default (Nat.le_of_not_lt hge)] at h
  cases h

theorem length_setClient (g : SpatialHashGrid) (cid : Nat) (c : Client) :
    (g.setClient cid c).clients.length = g.clients.length := by
  simp [setClient]

theorem hash_key_update_indices (c : Client) (o : Option ((ℤ × ℤ) × (ℤ × ℤ))) :
    hash_key { c with indices := o } = hash_key c := rfl

theorem hash_key_update_position (c : Client) (p : ℚ × ℚ) :
    hash_key { c with position := p } = (p, c.dimensions, c.name) := rfl

theorem client_eta_of_indices_none {c : Client} (h : c.indices = none) :
    { c with indices := none } = c := by
  cases c
  simp_all

/-! ### Facts about `insert_client` -/

theorem insert_client_length (g : SpatialHashGrid) (cid : Nat) :
    (g.insert_client cid).clients.length = g.clients.length := by
  simp [insert_client, length_setClient]

theorem insert_client_bounds (g : SpatialHashGrid) (cid : Nat) :
    (g.insert_client cid).bounds = g.bounds := rfl

theorem insert_client_dims (g : SpatialHashGrid) (cid : Nat) :
    (g.insert_client cid).dimensions = g.dimensions := rfl

theorem getClient_insert_client_self {g : SpatialHashGrid} {cid : Nat}
    (h : cid < g.clients.length) :
    (g.insert_client cid).getClient cid =
      { g.getClient cid with indices := some (g.get_cell_range
          (g.getClient cid).position (g.getClient cid).dimensions) } := by
  show (g.setClient cid _).getClient cid = _
  exact getClient_setClient_self h

theorem getClient_insert_client_ne {g : SpatialHashGrid} {cid j : Nat}
    (h : j ≠ cid) : (g.insert_client cid).getClient j = g.getClient j := by
  show (g.setClient cid _).getClient j = _
  exact getClient_setClient_ne h

theorem insert_client_cell_map (g : SpatialHashGrid) (cid : Nat) :
    (g.insert_client cid).cell_map =
      insert_loop (g.setClient cid { g.getClient cid with indices := some (g.get_cell_range
        (g.getClient cid).position (g.getClient cid).dimensions) })
        cid (rangeKeys (g.get_cell_range (g.getClient cid).position
          (g.getClient cid).dimensions)) g.cell_map := rfl

/-! ### Facts about `delete_client` -/

theorem delete_client_of_indices_none {g : SpatialHashGrid} {cid : Nat}
    (h : (g.getClient cid).indices = none) : g.delete_client cid = g := by
  simp only [delete_client, h]

theorem delete_client_length (g : SpatialHashGrid) (cid : Nat) :
    (g.delete_client cid).clients.length = g.clients.length := by
  rcases h : (g.getClient cid).indices with _ | r
  · rw [delete_client_of_indices_none h]
  · simp only [delete_client, h, length_setClient]

theorem delete_client_bounds (g : SpatialHashGrid) (cid : Nat) :
    (g.delete_client cid).bounds = g.bounds := by
  rcases h : (g.getClient cid).indices with _ | r
  · rw [delete_client_of_indices_none h]
  · simp only [delete_client, h]
    rfl

theorem delete_client_dims (g : SpatialHashGrid) (cid : Nat) :
    (g.delete_client cid).dimensions = g.dimensions := by
  rcases h : (g.getClient cid).indices with _ | r
  · rw [delete_client_of_indices_none h]
  · simp only [delete_client, h]
    rfl

theorem getClient_delete_client_self (g : SpatialHashGrid) (cid : Nat) :
    (g.delete_client cid).getClient cid = { g.getClient cid with indices := none } := by
  rcases h : (g.getClient cid).indices with _ | r
  · rw [delete_client_of_indices_none h, client_eta_of_indices_none h]
  · have hlt : cid < g.clients.length := lt_length_of_indices_some h
    simp only [delete_client, h]
    exact getClient_setClient_self hlt

theorem getClient_delete_client_ne {g : SpatialHashGrid} {cid j : Nat}
    (h : j ≠ cid) : (g.delete_client cid).getClient j = g.getClient j := by
  rcases hi : (g.getClient cid).indices with _ | r
  · rw [delete_client_of_indices_none hi]
  · simp only [delete_client, hi]
    exact getClient_setClient_ne h

theorem delete_client_cell_map_of_some {g : SpatialHashGrid} {cid : Nat}
    {r : (ℤ × ℤ) × (ℤ × ℤ)} (h : (g.getClient cid).indices = some r) :
    (g.delete_client cid).cell_map = g.delete_loop cid (rangeKeys r) g.cell_map := by
  simp only [delete_client, h]
  rfl

end SpatialHashGrid

/-! ### The well-formedness invariant -/

namespace SpatialHashGrid

theorem get_cell_range_congr {g g' : SpatialHashGrid} (hb : g'.bounds = g.bounds)
    (hd : g'.dimensions = g.dimensions) (p d : ℚ × ℚ) :
    g'.get_cell_range p d = g.get_cell_range p d := by
  unfold get_cell_range cell_width cell_height
  rw [hb, hd]

end SpatialHashGrid

theorem WF_mkGrid (bounds : (ℚ × ℚ) × (ℚ × ℚ)) (dims : ℤ × ℤ) :
    WF (mkGrid bounds dims) := by
  have hdef : ∀ cid, (mkGrid bounds dims).getClient cid = default := fun cid =>
    SpatialHashGrid.getClient_default (by simp [mkGrid])
  have hbucket : ∀ k, (mkGrid bounds dims).bucket_of k = [] := fun k => rfl
  refine ⟨?_, ?_, ?_, ?_, ?_, ?_, ?_⟩
  · intro k cid h
    rw [SpatialHashGrid.mem_bucket, hbucket] at h
    cases h
  · intro cid r h
    rw [hdef] at h
    cases h
  · intro kb hkb
    cases hkb
  · simp [mkGrid]
  · intro cid cid' _ hreg _
    rw [hdef] at hreg
    cases hreg rfl
  · intro cid r h
    rw [hdef] at h
    cases h
  · intro k
    rw [hbucket]
    exact List.nodup_nil

namespace SpatialHashGrid

theorem WF_insert_client {g : SpatialHashGrid} {cid : Nat} (hwf : WF g)
    (hcid : cid < g.clients.length)
    (hfree : g.key_free cid (hash_key (g.getClient cid))) :
    WF (g.insert_client cid) := by
  have hget1 : (g.insert_client cid).getClient cid =
      { g.getClient cid with indices := some (g.get_cell_range
        (g.getClient cid).position (g.getClient cid).dimensions) } :=
    getClient_insert_client_self hcid
  have hgetne : ∀ j, j ≠ cid →
      (g.insert_client cid).getClient j = g.getClient j :=
    fun j hj => getClient_insert_client_ne hj
  have hhash : ∀ j, hash_key ((g.insert_client cid).getClient j) =
      hash_key (g.getClient j) := by
    intro j
    by_cases hj : j = cid
    · subst hj
      rw [hget1, hash_key_update_indices]
    · rw [hgetne j hj]
  set c := g.getClient cid with hc
  set r := g.get_cell_range c.position c.dimensions with hr
  set g₁ := g.setClient cid { c with indices := some r } with hg₁
  have hloopget : ∀ j, g₁.getClient j = (g.insert_client cid).getClient j :=
    fun j => rfl
  have hH : ∀ k' j, memB g.cell_map k' j →
      same_set_key (g₁.getClient j) (g₁.getClient cid) = true → j = cid := by
    intro k' j hmem hkey
    by_contra hne
    have h1 := same_set_key_iff.mp hkey
    rw [hloopget j, hloopget cid, hhash j, hhash cid] at h1
    obtain ⟨rj, hrj, _⟩ := hwf.located k' j hmem
    exact hfree j hne (by rw [hrj]; exact fun he => Option.noConfusion he) h1
  have hmem_iff : ∀ k j, (g.insert_client cid).mem_bucket k j ↔
      memB (insert_loop g₁ cid (rangeKeys r) g.cell_map) k j := fun k j => Iff.rfl
  have hrange_eq : ∀ p d, (g.insert_client cid).get_cell_range p d =
      g.get_cell_range p d := fun p d => rfl
  refine ⟨?_, ?_, ?_, ?_, ?_, ?_, ?_⟩
  · -- located
    intro k j hmem
    rw [hmem_iff] at hmem
    rcases memB_of_memB_insert_loop hmem with hold | ⟨rfl, hkin⟩
    · obtain ⟨rj, hrj, hk⟩ := hwf.located k j hold
      by_cases hj : j = cid
      · subst hj
        refine ⟨r, by rw [hget1], ?_⟩
        have hrr : rj = r := hwf.ranges j rj hrj
        rwa [← hrr]
      · exact ⟨rj, by rw [hgetne j hj]; exact hrj, hk⟩
    · exact ⟨r, by rw [hget1], hkin⟩
  · -- covered
    intro j rj hind k hk
    by_cases hj : j = cid
    · subst hj
      rw [hget1] at hind
      obtain rfl : r = rj := Option.some.inj hind
      rw [hmem_iff]
      exact self_memB_insert_loop hH hk
    · rw [hgetne j hj] at hind
      rw [hmem_iff]
      exact memB_insert_loop_mono (hwf.covered j rj hind k hk)
  · -- buckets_nonempty
    intro kb hkb
    exact insert_loop_nonempty hwf.buckets_nonempty kb hkb
  · -- nodup_keys
    exact insert_loop_nodup_keys hwf.nodup_keys
  · -- distinct_keys
    intro j j' hne hregj hregj'
    rw [hhash j, hhash j']
    by_cases hj : j = cid
    · subst hj
      have hj' : j' ≠ j := fun he => hne (he ▸ rfl)
      rw [hgetne j' hj'] at hregj'
      exact fun he => hfree j' hj' hregj' he.symm
    · by_cases hj' : j' = cid
      · subst hj'
        rw [hgetne j hj] at hregj
        exact hfree j hj hregj
      · rw [hgetne j hj] at hregj
        rw [hgetne j' hj'] at hregj'
        exact hwf.distinct_keys j j' hne hregj hregj'
  · -- ranges
    intro j rj hind
    by_cases hj : j = cid
    · subst hj
      rw [hget1] at hind ⊢
      obtain rfl : r = rj := Option.some.inj hind
      rw [hrange_eq]
    · rw [hgetne j hj] at hind ⊢
      rw [hrange_eq]
      exact hwf.ranges j rj hind
  · -- buckets_nodup
    intro k
    exact insert_loop_bucket_nodup (fun k' => hwf.buckets_nodup k') k

end SpatialHashGrid

namespace SpatialHashGrid

theorem WF_delete_client {g : SpatialHashGrid} (cid : Nat) (hwf : WF g) :
    WF (g.delete_client cid) := by
  rcases hind : (g.getClient cid).indices with _ | r
  · rw [delete_client_of_indices_none hind]
    exact hwf
  · have hmap : (g.delete_client cid).cell_map =
        g.delete_loop cid (rangeKeys r) g.cell_map := delete_client_cell_map_of_some hind
    have hget_self : (g.delete_client cid).getClient cid =
        { g.getClient cid with indices := none } := getClient_delete_client_self g cid
    have hget_ne : ∀ j, j ≠ cid → (g.delete_client cid).getClient j = g.getClient j :=
      fun j hj => getClient_delete_client_ne hj
    have hH : ∀ k j, memB g.cell_map k j →
        same_set_key (g.getClient j) (g.getClient cid) = true → j = cid := by
      intro k j hmem hkey
      by_contra hne
      obtain ⟨rj, hrj, _⟩ := hwf.located k j hmem
      exact hwf.distinct_keys j cid hne
        (by rw [hrj]; exact fun he => Option.noConfusion he)
        (by rw [hind]; exact fun he => Option.noConfusion he)
        (same_set_key_iff.mp hkey)
    have hmem_iff : ∀ k j, (g.delete_client cid).mem_bucket k j ↔
        memB (g.delete_loop cid (rangeKeys r) g.cell_map) k j := by
      intro k j
      rw [mem_bucket, bucket_of_eq, hmap]
    have hbn : ∀ k, ((mapFind g.cell_map k).getD []).Nodup :=
      fun k => hwf.buckets_nodup k
    have hrange_eq : ∀ p d, (g.delete_client cid).get_cell_range p d =
        g.get_cell_range p d :=
      get_cell_range_congr (delete_client_bounds g cid) (delete_client_dims g cid)
    refine ⟨?_, ?_, ?_, ?_, ?_, ?_, ?_⟩
    · -- located
      intro k j hmem
      rw [hmem_iff] at hmem
      have hold : memB g.cell_map k j := memB_of_memB_delete_loop hwf.nodup_keys hmem
      obtain ⟨rj, hrj, hk⟩ := hwf.located k j hold
      by_cases hj : j = cid
      · exfalso
        have hrj' : (g.getClient cid).indices = some rj := by
          rw [← hj]
          exact hrj
        have hre : rj = r := by
          rw [hind] at hrj'
          exact (Option.some.inj hrj').symm
        have hrem := delete_loop_removes hwf.nodup_keys hbn hH k (by rwa [hre] at hk)
        rw [hj] at hmem
        exact hrem hmem
      · exact ⟨rj, by rw [hget_ne j hj]; exact hrj, hk⟩
    · -- covered
      intro j rj hind' k hk
      by_cases hj : j = cid
      · rw [hj, hget_self] at hind'
        simp at hind'
      · rw [hget_ne j hj] at hind'
        rw [hmem_iff]
        refine memB_delete_loop_of_no_key (same_set_key_false_of_hash_ne ?_)
          (hwf.covered j rj hind' k hk)
        exact hwf.distinct_keys j cid hj
          (by rw [hind']; exact fun he => Option.noConfusion he)
          (by rw [hind]; exact fun he => Option.noConfusion he)
    · -- buckets_nonempty
      intro kb hkb
      rw [hmap] at hkb
      exact delete_loop_nonempty hwf.buckets_nonempty kb hkb
    · -- nodup_keys
      rw [hmap]
      exact delete_loop_nodup_keys hwf.nodup_keys
    · -- distinct_keys
      intro j j' hne hregj hregj'
      have hj : j ≠ cid := by
        intro he
        rw [he, hget_self] at hregj
        exact hregj rfl
      have hj' : j' ≠ cid := by
        intro he
        rw [he, hget_self] at hregj'
        exact hregj' rfl
      rw [hget_ne j hj] at hregj ⊢
      rw [hget_ne j' hj'] at hregj' ⊢
      exact hwf.distinct_keys j j' hne hregj hregj'
    · -- ranges
      intro j rj hind'
      by_cases hj : j = cid
      · rw [hj, hget_self] at hind'
        simp at hind'
      · rw [hget_ne j hj] at hind' ⊢
        rw [hrange_eq]
        exact hwf.ranges j rj hind'
    · -- buckets_nodup
      intro k
      rw [bucket_of_eq, hmap]
      exact delete_loop_bucket_nodup hwf.nodup_keys hbn k

end SpatialHashGrid

namespace SpatialHashGrid

theorem WF_set_position_of_unregistered {g : SpatialHashGrid} {cid : Nat} {p : ℚ × ℚ}
    (hwf : WF g) (hind : (g.getClient cid).indices = none) :
    WF (g.setClient cid { g.getClient cid with position := p }) := by
  by_cases hcid : cid < g.clients.length
  case neg =>
    have he : g.setClient cid { g.getClient cid with position := p } = g := by
      unfold setClient
      rw [List.set_eq_of_length_le (Nat.le_of_not_lt hcid)]
    rw [he]
    exact hwf
  case pos =>
    have hnotmem : ∀ k, ¬ g.mem_bucket k cid := by
      intro k hmem
      obtain ⟨rj, hrj, _⟩ := hwf.located k cid hmem
      rw [hind] at hrj
      exact Option.noConfusion hrj
    have hget_self : (g.setClient cid { g.getClient cid with position := p }).getClient
        cid = { g.getClient cid with position := p } := getClient_setClient_self hcid
    have hget_ne : ∀ j, j ≠ cid →
        (g.setClient cid { g.getClient cid with position := p }).getClient j =
          g.getClient j := fun j hj => getClient_setClient_ne hj
    have hmem_iff : ∀ k j,
        (g.setClient cid { g.getClient cid with position := p }).mem_bucket k j ↔
          g.mem_bucket k j := fun k j => Iff.rfl
    refine ⟨?_, ?_, ?_, ?_, ?_, ?_, ?_⟩
    · intro k j hmem
      rw [hmem_iff] at hmem
      obtain ⟨rj, hrj, hk⟩ := hwf.located k j hmem
      by_cases hj : j = cid
      · exact absurd (hj ▸ hmem) (hnotmem k)
      · exact ⟨rj, by rw [hget_ne j hj]; exact hrj, hk⟩
    · intro j rj hind' k hk
      by_cases hj : j = cid
      · rw [hj, hget_self] at hind'
        have : (g.getClient cid).indices = some rj := hind'
        rw [hind] at this
        exact Option.noConfusion this
      · rw [hget_ne j hj] at hind'
        rw [hmem_iff]
        exact hwf.covered j rj hind' k hk
    · exact hwf.buckets_nonempty
    · exact hwf.nodup_keys
    · intro j j' hne hregj hregj'
      have hj : j ≠ cid := by
        intro he
        rw [he, hget_self] at hregj
        exact hregj hind
      have hj' : j' ≠ cid := by
        intro he
        rw [he, hget_self] at hregj'
        exact hregj' hind
      rw [hget_ne j hj] at hregj ⊢
      rw [hget_ne j' hj'] at hregj' ⊢
      exact hwf.distinct_keys j j' hne hregj hregj'
    · intro j rj hind'
      by_cases hj : j = cid
      · rw [hj, hget_self] at hind'
        have : (g.getClient cid).indices = some rj := hind'
        rw [hind] at this
        exact Option.noConfusion this
      · rw [hget_ne j hj] at hind' ⊢
        exact hwf.ranges j rj hind'
    · exact hwf.buckets_nodup

theorem getClient_append_lt {g : SpatialHashGrid} {c : Client} {j : Nat}
    (hj : j < g.clients.length) :
    ({ g with clients := g.clients ++ [c] } : SpatialHashGrid).getClient j =
      g.getClient j := by
  simp [getClient, List.getD, List.getElem?_append_left hj]

theorem getClient_append_self (g : SpatialHashGrid) (c : Client) :
    ({ g with clients := g.clients ++ [c] } : SpatialHashGrid).getClient
      g.clients.length = c := by
  simp [getClient, List.getD]

theorem append_registered {g : SpatialHashGrid} {c : Client} (hc : c.indices = none)
    {j : Nat}
    (hreg : (({ g with clients := g.clients ++ [c] } :
      SpatialHashGrid).getClient j).indices ≠ none) :
    j < g.clients.length ∧
      ({ g with clients := g.clients ++ [c] } : SpatialHashGrid).getClient j =
        g.getClient j := by
  by_cases hj : j < g.clients.length
  · exact ⟨hj, getClient_append_lt hj⟩
  · exfalso
    by_cases hj2 : j = g.clients.length
    · rw [hj2, getClient_append_self] at hreg
      exact hreg hc
    · have hge : g.clients.length + 1 ≤ j := by omega
      rw [getClient_default (by simpa using hge)] at hreg
      exact hreg rfl


theorem WF_append_client {g : SpatialHashGrid} (c : Client) (hc : c.indices = none)
    (hwf : WF g) : WF ({ g with clients := g.clients ++ [c] } : SpatialHashGrid) := by
  have hmem_iff : ∀ k j,
      ({ g with clients := g.clients ++ [c] } : SpatialHashGrid).mem_bucket k j ↔
        g.mem_bucket k j := fun k j => Iff.rfl
  refine ⟨?_, ?_, ?_, ?_, ?_, ?_, ?_⟩
  · intro k j hmem
    rw [hmem_iff] at hmem
    obtain ⟨rj, hrj, hk⟩ := hwf.located k j hmem
    have hjlt : j < g.clients.length := by
      by_contra hge
      rw [getClient_default (Nat.le_of_not_lt hge)] at hrj
      exact Option.noConfusion hrj
    exact ⟨rj, by rw [getClient_append_lt hjlt]; exact hrj, hk⟩
  · intro j rj hind' k hk
    have hne : (({ g with clients := g.clients ++ [c] } :
        SpatialHashGrid).getClient j).indices ≠ none := by
      rw [hind']
      exact fun h => Option.noConfusion h
    obtain ⟨hjlt, he⟩ := append_registered hc hne
    rw [he] at hind'
    rw [hmem_iff]
    exact hwf.covered j rj hind' k hk
  · exact hwf.buckets_nonempty
  · exact hwf.nodup_keys
  · intro j j' hne hregj hregj'
    obtain ⟨_, hej⟩ := append_registered hc hregj
    obtain ⟨_, hej'⟩ := append_registered hc hregj'
    rw [hej] at hregj ⊢
    rw [hej'] at hregj' ⊢
    exact hwf.distinct_keys j j' hne hregj hregj'
  · intro j rj hind'
    have hne : (({ g with clients := g.clients ++ [c] } :
        SpatialHashGrid).getClient j).indices ≠ none := by
      rw [hind']
      exact fun h => Option.noConfusion h
    obtain ⟨_, hej⟩ := append_registered hc hne
    rw [hej] at hind' ⊢
    exact hwf.ranges j rj hind'
  · exact hwf.buckets_nodup

theorem WF_new_client {g : SpatialHashGrid} {p d : ℚ × ℚ} {n : String} (hwf : WF g)
    (hfree : g.key_free g.clients.length (p, d, n)) :
    WF (g.new_client p d n).1 := by
  show WF (({ g with clients := g.clients ++ [(⟨p, d, n, none⟩ : Client)] } :
    SpatialHashGrid).insert_client g.clients.length)
  refine WF_insert_client (WF_append_client _ rfl hwf) (by simp) ?_
  rw [getClient_append_self]
  intro j hj hreg
  obtain ⟨hjlt, hej⟩ := append_registered rfl hreg
  rw [hej] at hreg ⊢
  exact hfree j hj hreg

theorem WF_update_client {g : SpatialHashGrid} {cid : Nat} {p : ℚ × ℚ} (hwf : WF g)
    (hcid : cid < g.clients.length)
    (hfree : g.key_free cid (p, (g.getClient cid).dimensions,
      (g.getClient cid).name)) :
    WF (g.update_client cid p) := by
  have h₁ : WF (g.delete_client cid) := WF_delete_client cid hwf
  have hind₁ : ((g.delete_client cid).getClient cid).indices = none := by
    rw [getClient_delete_client_self]
  have h₂ : WF ((g.delete_client cid).setClient cid
      { (g.delete_client cid).getClient cid with position := p }) :=
    WF_set_position_of_unregistered h₁ hind₁
  have hlen₁ : cid < (g.delete_client cid).clients.length := by
    rw [delete_client_length]
    exact hcid
  have hcid₂ : cid < ((g.delete_client cid).setClient cid
      { (g.delete_client cid).getClient cid with position := p }).clients.length := by
    rw [length_setClient, delete_client_length]
    exact hcid
  show WF (((g.delete_client cid).setClient cid
    { (g.delete_client cid).getClient cid with position := p }).insert_client cid)
  refine WF_insert_client h₂ hcid₂ ?_
  have hget₂ : ((g.delete_client cid).setClient cid
      { (g.delete_client cid).getClient cid with position := p }).getClient cid =
        { (g.delete_client cid).getClient cid with position := p } :=
    getClient_setClient_self hlen₁
  have hkey : hash_key (((g.delete_client cid).setClient cid
      { (g.delete_client cid).getClient cid with position := p }).getClient cid) =
        (p, (g.getClient cid).dimensions, (g.getClient cid).name) := by
    rw [hget₂, hash_key_update_position, getClient_delete_client_self]
  rw [hkey]
  intro j hj hreg
  have he : ((g.delete_client cid).setClient cid
      { (g.delete_client cid).getClient cid with position := p }).getClient j =
        g.getClient j := by
    rw [getClient_setClient_ne hj, getClient_delete_client_ne hj]
  rw [he] at hreg ⊢
  exact hfree j hj hreg

end SpatialHashGrid

/-! ### Reachable states and the cell-map invariant -/

theorem WF_of_reachable {g : SpatialHashGrid} (h : Reachable g) : WF g := by
  induction h with
  | init b d => exact WF_mkGrid b d
  | new g p d n _ hfree ih => exact SpatialHashGrid.WF_new_client ih hfree
  | ins g cid _ hcid hfree ih => exact SpatialHashGrid.WF_insert_client ih hcid hfree
  | upd g cid p _ hcid hfree ih => exact SpatialHashGrid.WF_update_client ih hcid hfree
  | del g cid _ ih => exact SpatialHashGrid.WF_delete_client cid ih

theorem cell_invariant_of_WF {g : SpatialHashGrid} (hwf : WF g) : cell_invariant g := by
  refine ⟨?_, ?_, hwf.buckets_nonempty⟩
  · intro cid r hind k
    constructor
    · intro hmem
      obtain ⟨r', hind', hk⟩ := hwf.located k cid hmem
      rw [hind] at hind'
      obtain rfl := Option.some.inj hind'
      exact hk
    · intro hk
      exact hwf.covered cid r hind k hk
  · intro cid hind k hmem
    obtain ⟨r', hind', _⟩ := hwf.located k cid hmem
    rw [hind] at hind'
    exact Option.noConfusion hind'

/-! ### Lemmas about the query -/

namespace SpatialHashGrid

theorem has_rep_bucket_add_mono {g : SpatialHashGrid} {s : List Nat} {j x : Nat}
    (h : g.has_rep s j) : g.has_rep (g.bucket_add s x) j := by
  obtain ⟨j', hj', hkey⟩ := h
  exact ⟨j', mem_bucket_add hj', hkey⟩

theorem has_rep_bucket_add_self (g : SpatialHashGrid) (s : List Nat) (j : Nat) :
    g.has_rep (g.bucket_add s j) j := by
  unfold bucket_add
  split
  · next h =>
    obtain ⟨j', hj', hkey⟩ := List.any_eq_true.mp h
    exact ⟨j', hj', hkey⟩
  · exact ⟨j, List.mem_append_right _ (List.mem_singleton.mpr rfl), same_set_key_refl _⟩

theorem has_rep_set_update_mono {g : SpatialHashGrid} {s b : List Nat} {j : Nat}
    (h : g.has_rep s j) : g.has_rep (g.set_update s b) j := by
  induction b generalizing s with
  | nil => exact h
  | cons x rest ih => exact ih (has_rep_bucket_add_mono h)

theorem has_rep_set_update_of_mem {g : SpatialHashGrid} {s b : List Nat} {j : Nat}
    (h : j ∈ b) : g.has_rep (g.set_update s b) j := by
  induction b generalizing s with
  | nil => cases h
  | cons x rest ih =>
    rcases List.mem_cons.mp h with rfl | h
    · show g.has_rep (g.set_update (g.bucket_add s j) rest) j
      exact has_rep_set_update_mono (has_rep_bucket_add_self g s j)
    · exact ih h

theorem has_rep_find_loop_mono {g : SpatialHashGrid} {keys : List String}
    {s : List Nat} {j : Nat} (h : g.has_rep s j) :
    g.has_rep (g.find_loop keys s).1 j := by
  induction keys generalizing s with
  | nil => exact h
  | cons k₀ rest ih =>
    rw [find_loop]
    rcases hf : mapFind g.cell_map k₀ with _ | b
    · exact ih h
    · exact ih (has_rep_set_update_mono h)

theorem has_rep_find_loop_of_mem {g : SpatialHashGrid} {keys : List String}
    {s : List Nat} {j : Nat} {k : String} (hk : k ∈ keys) (hmem : g.mem_bucket k j) :
    g.has_rep (g.find_loop keys s).1 j := by
  induction keys generalizing s with
  | nil => cases hk
  | cons k₀ rest ih =>
    rw [find_loop]
    rcases List.mem_cons.mp hk with rfl | hk
    · rcases hf : mapFind g.cell_map k with _ | b
      · rw [mem_bucket, bucket_of_eq, hf] at hmem
        cases hmem
      · have hjb : j ∈ b := by
          rw [mem_bucket, bucket_of_eq, hf] at hmem
          exact hmem
        exact has_rep_find_loop_mono (has_rep_set_update_of_mem hjb)
    · rcases hf : mapFind g.cell_map k₀ with _ | b
      · exact ih hk
      · exact ih hk

theorem list_contains_of_has_rep {g : SpatialHashGrid} {s : List Nat} {j : Nat}
    (h : g.has_rep s j) : g.list_contains s (g.getClient j) = true := by
  obtain ⟨j', hj', hkey⟩ := h
  exact List.any_eq_true.mpr ⟨j', hj', client_eq_of_same_set_key hkey⟩

/-- The core query guarantee: a client sitting in the bucket of some
cell key of the query's range is reported by `find_nearby` (up to
`Client.__eq__`, which is how the caller tests membership). -/
theorem list_contains_find_nearby {g : SpatialHashGrid} {p d : ℚ × ℚ} {k : String}
    {cid : Nat} (hk : k ∈ rangeKeys (g.get_cell_range p d))
    (hmem : g.mem_bucket k cid) :
    g.list_contains (g.find_nearby p d).1 (g.getClient cid) = true :=
  list_contains_of_has_rep (has_rep_find_loop_of_mem hk hmem)

theorem find_loop_snd (g : SpatialHashGrid) (keys : List String) (s : List Nat) :
    (g.find_loop keys s).2 = g := by
  induction keys generalizing s with
  | nil => rfl
  | cons k₀ rest ih =>
    rw [find_loop]
    rcases hf : mapFind g.cell_map k₀ with _ | b
    · exact ih _
    · exact ih _

theorem get_cell_key_mem_rangeKeys {r : (ℤ × ℤ) × (ℤ × ℤ)} {x y : ℤ}
    (hx₁ : r.1.1 ≤ x) (hx₂ : x ≤ r.2.1) (hy₁ : r.1.2 ≤ y) (hy₂ : y ≤ r.2.2) :
    get_cell_key x y ∈ rangeKeys r :=
  mem_rangeKeys.mpr ⟨x, y, mem_intRange.mpr ⟨hx₁, hx₂⟩, mem_intRange.mpr ⟨hy₁, hy₂⟩, rfl⟩

theorem cell_range_min_le_max_x {g : SpatialHashGrid} {p d : ℚ × ℚ}
    (hw : 0 < g.cell_width) (hd : 0 ≤ d.1) :
    (g.get_cell_range p d).1.1 ≤ (g.get_cell_range p d).2.1 := by
  unfold get_cell_range
  refine Int.floor_le_floor ?_
  refine (div_le_div_iff_of_pos_right hw).mpr ?_
  linarith

theorem cell_range_min_le_max_y {g : SpatialHashGrid} {p d : ℚ × ℚ}
    (hh : 0 < g.cell_height) (hd : 0 ≤ d.2) :
    (g.get_cell_range p d).1.2 ≤ (g.get_cell_range p d).2.2 := by
  unfold get_cell_range
  refine Int.floor_le_floor ?_
  refine (div_le_div_iff_of_pos_right hh).mpr ?_
  linarith

end SpatialHashGrid

/-! ### Claim theorems -/

/-- C5 (counterexample): construction never fails.  `__init__` stores
zero-span bounds and non-positive cell counts without any check and
produces a grid, contradicting the claim that grid creation fails with
a configuration error on such arguments. -/
theorem C5_construction_cex :
    mkGrid ((0, 0), (0, 0)) (0, 0) =
      { bounds := ((0, 0), (0, 0)), dimensions := (0, 0), cell_map := [],
        clients := [] } ∧
    (mkGrid ((5, 5), (10, 3)) (0, -2)).cell_map = [] ∧
    (mkGrid ((5, 5), (10, 3)) (0, -2)).bounds = ((5, 5), (10, 3)) :=
  ⟨rfl, rfl, rfl⟩

/-- C5 (amended): grid construction performs no validation at all: for
every bounds and resolution argument — including zero or negative spans
and non-positive cell counts — `__init__` succeeds and produces the grid
that stores the arguments unchanged with an empty cell map. -/
theorem C5_construction_amended : ∀ (b : (ℚ × ℚ) × (ℚ × ℚ)) (d : ℤ × ℤ),
    mkGrid b d = { bounds := b, dimensions := d, cell_map := [], clients := [] } :=
  fun _ _ => rfl

/-- C6: the coordinate transform of `get_cell_range` agrees with the
specification formula (floors of edge offsets divided by the cell
sizes); zero-extent objects get `min_cell = max_cell`; an object whose
rectangle lies strictly inside one cell `k` gets `min_cell = max_cell =
k`; and on the negative side the code floors (position (-5,-5) lands in
cell (-1,-1)) where truncation toward zero (the ceiling, for negative
quotients) would give 0. -/
theorem C6_transform :
    (∀ (g : SpatialHashGrid) (p d : ℚ × ℚ),
      g.get_cell_range p d = g.spec_cell_range p d) ∧
    (∀ (g : SpatialHashGrid) (p : ℚ × ℚ),
      (g.get_cell_range p (0, 0)).1 = (g.get_cell_range p (0, 0)).2) ∧
    (∀ (g : SpatialHashGrid) (p d : ℚ × ℚ) (k : ℤ × ℤ),
      0 < g.cell_width → 0 < g.cell_height → 0 ≤ d.1 → 0 ≤ d.2 →
      (k.1 : ℚ) * g.cell_width ≤ p.1 - d.1 / 2 - g.bounds.1.1 →
      p.1 + d.1 / 2 - g.bounds.1.1 < (k.1 + 1 : ℚ) * g.cell_width →
      (k.2 : ℚ) * g.cell_height ≤ p.2 - d.2 / 2 - g.bounds.2.1 →
      p.2 + d.2 / 2 - g.bounds.2.1 < (k.2 + 1 : ℚ) * g.cell_height →
      g.get_cell_range p d = (k, k)) ∧
    (C6grid.get_cell_range (-5, -5) (0, 0) = ((-1, -1), (-1, -1)) ∧
      ⌈((-5 : ℚ) - 0 / 2 - 0) / C6grid.cell_width⌉ = 0) := by
  refine ⟨fun g p d => rfl, ?_, ?_, ?_⟩
  · intro g p
    unfold SpatialHashGrid.get_cell_range
    norm_num
  · intro g p d k hw hh hd1 hd2 h1 h2 h3 h4
    obtain ⟨k1, k2⟩ := k
    dsimp only at h1 h2 h3 h4
    have hminmax_x : p.1 - d.1 / 2 - g.bounds.1.1 ≤ p.1 + d.1 / 2 - g.bounds.1.1 := by
      linarith
    have hminmax_y : p.2 - d.2 / 2 - g.bounds.2.1 ≤ p.2 + d.2 / 2 - g.bounds.2.1 := by
      linarith
    have e1 : ⌊(p.1 - d.1 / 2 - g.bounds.1.1) / g.cell_width⌋ = k1 := by
      rw [Int.floor_eq_iff]
      exact ⟨(le_div_iff₀ hw).mpr (by linarith),
        (div_lt_iff₀ hw).mpr (by linarith)⟩
    have e2 : ⌊(p.1 + d.1 / 2 - g.bounds.1.1) / g.cell_width⌋ = k1 := by
      rw [Int.floor_eq_iff]
      exact ⟨(le_div_iff₀ hw).mpr (by linarith),
        (div_lt_iff₀ hw).mpr (by linarith)⟩
    have e3 : ⌊(p.2 - d.2 / 2 - g.bounds.2.1) / g.cell_height⌋ = k2 := by
      rw [Int.floor_eq_iff]
      exact ⟨(le_div_iff₀ hh).mpr (by linarith),
        (div_lt_iff₀ hh).mpr (by linarith)⟩
    have e4 : ⌊(p.2 + d.2 / 2 - g.bounds.2.1) / g.cell_height⌋ = k2 := by
      rw [Int.floor_eq_iff]
      exact ⟨(le_div_iff₀ hh).mpr (by linarith),
        (div_lt_iff₀ hh).mpr (by linarith)⟩
    unfold SpatialHashGrid.get_cell_range
    simp only [Prod.mk.injEq]
    exact ⟨⟨e1, e3⟩, e2, e4⟩
  · constructor
    · with_unfolding_all decide
    · with_unfolding_all decide

/-- C6 (witness): the single-cell conjunct applied on the 10×10 example
grid to a 2×2 object centred at (33,44), which lies strictly inside
cell (3,4). -/
theorem C6_transform_witness : C6grid.get_cell_range (33, 44) (2, 2) = ((3, 4), (3, 4)) :=
  C6_transform.2.2.1 C6grid (33, 44) (2, 2) (3, 4)
    (by with_unfolding_all decide) (by with_unfolding_all decide)
    (by with_unfolding_all decide) (by with_unfolding_all decide)
    (by with_unfolding_all decide) (by with_unfolding_all decide)
    (by with_unfolding_all decide) (by with_unfolding_all decide)

/-- C7 (counterexample): in the worked example the query at (22,22)
with extent (10,10) does *not* return the empty set — it includes B,
whose cell range (0,0)–(1,1) meets the query's range (1,1)–(2,2) in
cell (1,1). -/
theorem C7_example_cex :
    C7grid.list_contains (C7grid.find_nearby (22, 22) (10, 10)).1
      (C7grid.getClient 1) = true ∧
    (C7grid.find_nearby (22, 22) (10, 10)).1 ≠ [] := by
  with_unfolding_all decide

/-- C7 (amended): in the worked example the query at (22,22) with
extent (10,10) returns exactly {B} (the client with id 1, named "B");
A is not included. -/
theorem C7_example_amended :
    (C7grid.find_nearby (22, 22) (10, 10)).1 = [1] ∧
    (C7grid.getClient 1).name = "B" ∧
    C7grid.list_contains (C7grid.find_nearby (22, 22) (10, 10)).1
      (C7grid.getClient 0) = false ∧
    (C7grid.getClient 0).name = "A" := by
  with_unfolding_all decide

/-- C9 (counterexample): two records that compare equal under `__eq__`
but carry different names have different hash tuples, and the Python
*set* membership test (hash, then equality) does *not* treat the
distinct record as present — only the list membership of query results
does. -/
theorem C9_eq_hash_cex :
    client_eq C9r1 C9r2 = true ∧ C9r1.name ≠ C9r2.name ∧
    hash_key C9r1 ≠ hash_key C9r2 ∧ pyset_mem [C9r1] C9r2 = false := by
  with_unfolding_all decide

/-- C9 (amended): `__eq__` compares exactly position and dimensions;
the hash tuple additionally incorporates the name, so equal records
with different names hash differently; query-result (list) membership
treats a distinct record with equal position and dimensions as present;
bucket-set membership additionally requires the hash to match, i.e. the
name must coincide as well. -/
theorem C9_eq_hash_amended : ∀ c₁ c₂ : Client,
    (client_eq c₁ c₂ = true ↔
      c₁.position = c₂.position ∧ c₁.dimensions = c₂.dimensions) ∧
    (hash_key c₁ = hash_key c₂ ↔
      c₁.position = c₂.position ∧ c₁.dimensions = c₂.dimensions ∧
        c₁.name = c₂.name) ∧
    (client_eq c₁ c₂ = true → pylist_mem [c₁] c₂ = true) ∧
    (pyset_mem [c₁] c₂ = true ↔ hash_key c₁ = hash_key c₂) := by
  intro c₁ c₂
  refine ⟨?_, ?_, ?_, ?_⟩
  · simp [client_eq]
  · simp [hash_key, Prod.ext_iff]
  · intro h
    simp only [pylist_mem, List.any_cons, List.any_nil, Bool.or_false]
    exact h
  · rw [show pyset_mem [c₁] c₂ = same_set_key c₁ c₂ by
      simp [pyset_mem, List.any_cons]]
    exact same_set_key_iff

/-- C9 (witness): the amended claim at concrete records — the result
list containing "Client1" reports the differently-named equal record
"Client2" as present, and the singleton bucket set containing `C9r1`
reports the distinct record `C9r3` (same position, dimensions and name)
as present. -/
theorem C9_eq_hash_witness :
    pylist_mem [C9r1] C9r2 = true ∧ pyset_mem [C9r1] C9r3 = true := by
  constructor
  · exact (C9_eq_hash_amended C9r1 C9r2).2.2.1 (by with_unfolding_all decide)
  · exact ((C9_eq_hash_amended C9r1 C9r3).2.2.2).mpr (by with_unfolding_all decide)

/-- C10: the query is read-only — `find_nearby` returns the grid state
unchanged, so the cell map (in particular, no bucket is created for
absent cells) and every client record (position, dimensions, cached
range) are untouched. -/
theorem C10_query_readonly : ∀ (g : SpatialHashGrid) (p d : ℚ × ℚ),
    (g.find_nearby p d).2 = g ∧
    (g.find_nearby p d).2.cell_map = g.cell_map ∧
    (g.find_nearby p d).2.clients = g.clients := by
  intro g p d
  have h : (g.find_nearby p d).2 = g := SpatialHashGrid.find_loop_snd g _ []
  exact ⟨h, by rw [h], by rw [h]⟩

/-- C1 (counterexample): after registering two clients with identical
position, dimensions and name and deleting the first, the second is
still registered with a cached range reflecting its center and extent,
yet `find_nearby` at that center and extent returns the empty list and
does not include it: the second `add` was deduplicated against the
first object and the deletion removed the shared bucket entry. -/
theorem C1_membership_cex :
    (C1grid.getClient 1).position = (50, 50) ∧
    (C1grid.getClient 1).dimensions = (10, 10) ∧
    (C1grid.getClient 1).indices = some (C1grid.get_cell_range
      (C1grid.getClient 1).position (C1grid.getClient 1).dimensions) ∧
    C1grid.list_contains (C1grid.find_nearby (50, 50) (10, 10)).1
      (C1grid.getClient 1) = false ∧
    (C1grid.find_nearby (50, 50) (10, 10)).1 = [] := by
  with_unfolding_all decide

/-- C1 (amended): on a grid with positive cell sizes, a registered
object with nonnegative extent whose cached range reflects its center
and extent *and which is a member of the bucket of every cell key of
that range* is always included (under `Client.__eq__`, the membership
test Python applies to the result list) in `find_nearby` queried at its
own center and extent. -/
theorem C1_membership_amended (g : SpatialHashGrid) (cid : Nat)
    (hw : 0 < g.cell_width) (hh : 0 < g.cell_height)
    (hd1 : 0 ≤ (g.getClient cid).dimensions.1)
    (hd2 : 0 ≤ (g.getClient cid).dimensions.2)
    (hreg : (g.getClient cid).indices = some (g.get_cell_range
      (g.getClient cid).position (g.getClient cid).dimensions))
    (hmem : ∀ k ∈ rangeKeys (g.get_cell_range (g.getClient cid).position
      (g.getClient cid).dimensions), g.mem_bucket k cid) :
    g.list_contains (g.find_nearby (g.getClient cid).position
      (g.getClient cid).dimensions).1 (g.getClient cid) = true := by
  have hx : (g.get_cell_range (g.getClient cid).position
      (g.getClient cid).dimensions).1.1 ≤ (g.get_cell_range
      (g.getClient cid).position (g.getClient cid).dimensions).2.1 :=
    SpatialHashGrid.cell_range_min_le_max_x hw hd1
  have hy : (g.get_cell_range (g.getClient cid).position
      (g.getClient cid).dimensions).1.2 ≤ (g.get_cell_range
      (g.getClient cid).position (g.getClient cid).dimensions).2.2 :=
    SpatialHashGrid.cell_range_min_le_max_y hh hd2
  have hk := SpatialHashGrid.get_cell_key_mem_rangeKeys le_rfl hx le_rfl hy
  exact SpatialHashGrid.list_contains_find_nearby hk (hmem _ hk)

/-- C1 (witness): the amended membership statement on a freshly
registered single client. -/
theorem C1_membership_witness :
    C1wit.list_contains (C1wit.find_nearby (C1wit.getClient 0).position
      (C1wit.getClient 0).dimensions).1 (C1wit.getClient 0) = true :=
  C1_membership_amended C1wit 0 (by with_unfolding_all decide)
    (by with_unfolding_all decide) (by with_unfolding_all decide)
    (by with_unfolding_all decide) (by with_unfolding_all decide)
    (by with_unfolding_all decide)

/-- C2 (counterexample): repositioning a client exactly onto another
client with the same dimensions and name leaves it with a cached range
(7,7)–(8,8) while it is a member of none of those buckets (its
insertion was deduplicated against the other client), so the cell-map
invariant fails after a legal operation sequence. -/
theorem C2_invariant_cex :
    (C2grid.getClient 0).indices = some ((7, 7), (8, 8)) ∧
    SpatialHashGrid.get_cell_key 7 7 ∈ rangeKeys ((7, 7), (8, 8)) ∧
    ¬ C2grid.mem_bucket (SpatialHashGrid.get_cell_key 7 7) 0 ∧
    ¬ cell_invariant C2grid := by
  have h1 : (C2grid.getClient 0).indices = some ((7, 7), (8, 8)) := by
    with_unfolding_all decide
  have h2 : SpatialHashGrid.get_cell_key 7 7 ∈ rangeKeys ((7, 7), (8, 8)) := by
    with_unfolding_all decide
  have h3 : ¬ C2grid.mem_bucket (SpatialHashGrid.get_cell_key 7 7) 0 := by
    with_unfolding_all decide
  exact ⟨h1, h2, h3, fun hinv => h3 (((hinv.1 0 _ h1) _).mpr h2)⟩

/-- C2 (amended): after any sequence of construction, registration,
re-insertion, repositioning and deletion operations in which every
insertion gives the affected record a (position, dimensions, name)
triple distinct from that of every other currently registered record,
every object with a cached range is a member of the bucket of exactly
the cell keys of that range, and the cell map contains no empty
buckets. -/
theorem C2_invariant_amended : ∀ g : SpatialHashGrid, Reachable g → cell_invariant g :=
  fun _ h => cell_invariant_of_WF (WF_of_reachable h)

/-- C2 (witness): the invariant holds in the concrete state reached by
registering one object on the demo grid and deleting it again. -/
theorem C2_invariant_witness : cell_invariant C2wit := by
  refine C2_invariant_amended _
    (Reachable.del _ 0 (Reachable.new _ _ _ _ (Reachable.init _ _) ?_))
  intro j hj hreg
  exact absurd rfl hreg

/-- C3: deletion semantics.  Deleting a client with no cached range is
a no-op returning the state unchanged.  Deleting a registered client
with cached range `r` — in any state whose cell map has no duplicate
keys, duplicate-free nonempty buckets, and no other bucket member with
the client's hash key — clears the cached range, removes the client
from the bucket of every key of the *cached* range `r`, leaves the map
untouched at every key outside `r`, and leaves no empty bucket
behind. -/
theorem C3_delete_semantics (g : SpatialHashGrid) (cid : Nat) :
    ((g.getClient cid).indices = none → g.delete_client cid = g) ∧
    (∀ r, (g.getClient cid).indices = some r →
      (g.cell_map.map Prod.fst).Nodup →
      (∀ kb ∈ g.cell_map, kb.2.Nodup) →
      (∀ kb ∈ g.cell_map, ∀ j ∈ kb.2,
        same_set_key (g.getClient j) (g.getClient cid) = true → j = cid) →
      (∀ kb ∈ g.cell_map, kb.2 ≠ []) →
      ((g.delete_client cid).getClient cid).indices = none ∧
      (∀ k ∈ rangeKeys r, ¬ (g.delete_client cid).mem_bucket k cid) ∧
      (∀ k, k ∉ rangeKeys r →
        mapFind (g.delete_client cid).cell_map k = mapFind g.cell_map k) ∧
      (∀ kb ∈ (g.delete_client cid).cell_map, kb.2 ≠ [])) := by
  constructor
  · exact SpatialHashGrid.delete_client_of_indices_none
  · intro r hind hnk hbnodup huniq hne
    have hbn : ∀ k, ((mapFind g.cell_map k).getD []).Nodup := by
      intro k
      rcases hf : mapFind g.cell_map k with _ | b
      · simp
      · simpa using hbnodup (k, b) (mapFind_mem hf)
    have hH : ∀ k j, memB g.cell_map k j →
        same_set_key (g.getClient j) (g.getClient cid) = true → j = cid := by
      intro k j hmem hkey
      rcases hf : mapFind g.cell_map k with _ | b
      · rw [memB, hf] at hmem
        simp at hmem
      · rw [memB, hf] at hmem
        exact huniq (k, b) (mapFind_mem hf) j hmem hkey
    refine ⟨?_, ?_, ?_, ?_⟩
    · rw [SpatialHashGrid.getClient_delete_client_self]
    · intro k hk hmem
      rw [SpatialHashGrid.mem_bucket, SpatialHashGrid.bucket_of_eq,
        SpatialHashGrid.delete_client_cell_map_of_some hind] at hmem
      exact SpatialHashGrid.delete_loop_removes hnk hbn hH k hk hmem
    · intro k hk
      rw [SpatialHashGrid.delete_client_cell_map_of_some hind]
      exact SpatialHashGrid.delete_loop_find_of_not_mem hk
    · intro kb hkb
      rw [SpatialHashGrid.delete_client_cell_map_of_some hind] at hkb
      exact SpatialHashGrid.delete_loop_nonempty hne kb hkb

/-- C3 (witness): deleting the single registered client of `C3wit`
clears its cached range and empties the bucket of cell (4,4); deleting
it again is a no-op. -/
theorem C3_delete_semantics_witness :
    ((C3wit.delete_client 0).getClient 0).indices = none ∧
    (¬ (C3wit.delete_client 0).mem_bucket (SpatialHashGrid.get_cell_key 4 4) 0) ∧
    (C3wit.delete_client 0).delete_client 0 = C3wit.delete_client 0 := by
  have h := (C3_delete_semantics C3wit 0).2 ((4, 4), (5, 5))
    (by with_unfolding_all decide) (by with_unfolding_all decide)
    (by with_unfolding_all decide) (by with_unfolding_all decide)
    (by with_unfolding_all decide)
  refine ⟨h.1, h.2.1 _ (by with_unfolding_all decide), ?_⟩
  exact (C3_delete_semantics (C3wit.delete_client 0) 0).1 h.1

/-- C4 (counterexample): calling `update_client` on a client whose
cached range is cleared is not rejected: it silently succeeds, changes
the grid, registers the client at the new position (cached range
(1,1)–(2,2)) and adds it to the bucket of cell (1,1). -/
theorem C4_update_precondition_cex :
    (C4grid.getClient 0).indices = none ∧
    C4grid.update_client 0 (20, 20) ≠ C4grid ∧
    ((C4grid.update_client 0 (20, 20)).getClient 0).indices =
      some ((1, 1), (2, 2)) ∧
    (C4grid.update_client 0 (20, 20)).mem_bucket
      (SpatialHashGrid.get_cell_key 1 1) 0 := by
  with_unfolding_all decide

/-- C4 (amended): `update_client` on an unregistered client (cached
range `None`) is not rejected as a usage error: the deletion phase is a
no-op and the call behaves exactly as mutating the position and
performing a first-time insertion. -/
theorem C4_update_precondition_amended : ∀ (g : SpatialHashGrid) (cid : Nat)
    (p : ℚ × ℚ), (g.getClient cid).indices = none →
    g.update_client cid p =
      (g.setClient cid { g.getClient cid with position := p }).insert_client cid := by
  intro g cid p h
  show ((g.delete_client cid).setClient cid
    { (g.delete_client cid).getClient cid with position := p }).insert_client cid = _
  rw [SpatialHashGrid.delete_client_of_indices_none h]

/-- C4 (witness): the amended statement at the concrete
deleted-client state. -/
theorem C4_update_precondition_witness :
    C4grid.update_client 0 (20, 20) =
      (C4grid.setClient 0
        { C4grid.getClient 0 with position := (20, 20) }).insert_client 0 :=
  C4_update_precondition_amended C4grid 0 (20, 20) (by with_unfolding_all decide)

/-- C8 (counterexample): a zero-extent object registered exactly on the
cell corner (10,10) has cached range (1,1)–(1,1) only: it is *not* a
member of the buckets of the adjacent cells (0,1) or (0,0), and a query
window on the lower side of the boundary misses it — an object lying
exactly on a boundary is not in both adjacent cells when it touches the
boundary with its minimum edge. -/
theorem C8_boundary_cex :
    (C8grid.getClient 0).position = (10, 10) ∧
    (C8grid.getClient 0).dimensions = (0, 0) ∧
    (C8grid.getClient 0).indices = some ((1, 1), (1, 1)) ∧
    ¬ C8grid.mem_bucket (SpatialHashGrid.get_cell_key 0 1) 0 ∧
    ¬ C8grid.mem_bucket (SpatialHashGrid.get_cell_key 0 0) 0 ∧
    C8grid.list_contains (C8grid.find_nearby (5, 15) (0, 0)).1
      (C8grid.getClient 0) = false := by
  with_unfolding_all decide

/-- C8 (amended): one-sided boundary inclusion.  If a registered object
of positive width has its *maximum* x-edge exactly on the boundary of
cell column `k` (and its buckets reflect its cached range), then its
cell range covers both adjacent columns `k-1` and `k`, it is a member
of the buckets of both, and every query whose cell range touches either
of those cells returns it. -/
theorem C8_boundary_amended (g : SpatialHashGrid) (cid : Nat) (k j : ℤ)
    (hw : 0 < g.cell_width)
    (hwidth : 0 < (g.getClient cid).dimensions.1)
    (hedge : (g.getClient cid).position.1 + (g.getClient cid).dimensions.1 / 2 -
      g.bounds.1.1 = (k : ℚ) * g.cell_width)
    (hreg : (g.getClient cid).indices = some (g.get_cell_range
      (g.getClient cid).position (g.getClient cid).dimensions))
    (hmem : ∀ key ∈ rangeKeys (g.get_cell_range (g.getClient cid).position
      (g.getClient cid).dimensions), g.mem_bucket key cid)
    (hj1 : (g.get_cell_range (g.getClient cid).position
      (g.getClient cid).dimensions).1.2 ≤ j)
    (hj2 : j ≤ (g.get_cell_range (g.getClient cid).position
      (g.getClient cid).dimensions).2.2) :
    (g.get_cell_range (g.getClient cid).position
      (g.getClient cid).dimensions).2.1 = k ∧
    (g.get_cell_range (g.getClient cid).position
      (g.getClient cid).dimensions).1.1 ≤ k - 1 ∧
    g.mem_bucket (SpatialHashGrid.get_cell_key (k - 1) j) cid ∧
    g.mem_bucket (SpatialHashGrid.get_cell_key k j) cid ∧
    (∀ qp qd : ℚ × ℚ,
      (SpatialHashGrid.get_cell_key (k - 1) j ∈ rangeKeys (g.get_cell_range qp qd) ∨
        SpatialHashGrid.get_cell_key k j ∈ rangeKeys (g.get_cell_range qp qd)) →
      g.list_contains (g.find_nearby qp qd).1 (g.getClient cid) = true) := by
  have hmax : (g.get_cell_range (g.getClient cid).position
      (g.getClient cid).dimensions).2.1 = k := by
    show ⌊((g.getClient cid).position.1 + (g.getClient cid).dimensions.1 / 2 -
      g.bounds.1.1) / g.cell_width⌋ = k
    rw [hedge, mul_div_cancel_right₀ _ (ne_of_gt hw), Int.floor_intCast]
  have hmin : (g.get_cell_range (g.getClient cid).position
      (g.getClient cid).dimensions).1.1 ≤ k - 1 := by
    show ⌊((g.getClient cid).position.1 - (g.getClient cid).dimensions.1 / 2 -
      g.bounds.1.1) / g.cell_width⌋ ≤ k - 1
    have harg : (g.getClient cid).position.1 - (g.getClient cid).dimensions.1 / 2 -
        g.bounds.1.1 = (k : ℚ) * g.cell_width - (g.getClient cid).dimensions.1 := by
      linarith
    rw [harg]
    have hlt : ((k : ℚ) * g.cell_width - (g.getClient cid).dimensions.1) /
        g.cell_width < k := by
      rw [div_lt_iff₀ hw]
      linarith
    have hfl := Int.floor_lt.mpr hlt
    omega
  have hk1 : SpatialHashGrid.get_cell_key (k - 1) j ∈ rangeKeys
      (g.get_cell_range (g.getClient cid).position (g.getClient cid).dimensions) :=
    SpatialHashGrid.get_cell_key_mem_rangeKeys hmin (by rw [hmax]; omega) hj1 hj2
  have hk2 : SpatialHashGrid.get_cell_key k j ∈ rangeKeys
      (g.get_cell_range (g.getClient cid).position (g.getClient cid).dimensions) :=
    SpatialHashGrid.get_cell_key_mem_rangeKeys (by omega) (by rw [hmax]) hj1 hj2
  refine ⟨hmax, hmin, hmem _ hk1, hmem _ hk2, ?_⟩
  intro qp qd hq
  rcases hq with hq | hq
  · exact SpatialHashGrid.list_contains_find_nearby hq (hmem _ hk1)
  · exact SpatialHashGrid.list_contains_find_nearby hq (hmem _ hk2)

/-- C8 (witness): a 10×10 object centred at (15,15) has its right edge
exactly on the boundary x = 20 (cell column 2); it is in the buckets of
both columns 1 and 2, and a query window inside cell (1,1) returns
it. -/
theorem C8_boundary_witness :
    C8wit.mem_bucket (SpatialHashGrid.get_cell_key 1 1) 0 ∧
    C8wit.mem_bucket (SpatialHashGrid.get_cell_key 2 1) 0 ∧
    C8wit.list_contains (C8wit.find_nearby (12, 12) (2, 2)).1
      (C8wit.getClient 0) = true := by
  have h := C8_boundary_amended C8wit 0 2 1
    (by with_unfolding_all decide) (by with_unfolding_all decide)
    (by with_unfolding_all decide) (by with_unfolding_all decide)
    (by with_unfolding_all decide) (by with_unfolding_all decide)
    (by with_unfolding_all decide)
  exact ⟨h.2.2.1, h.2.2.2.1, h.2.2.2.2 (12, 12) (2, 2)
    (Or.inl (by with_unfolding_all decide))⟩
